import Mathlib

/-!
Verification of the signal-derivation and alerting engine of a GitLab
merge-request radar.  The definitions below are a shallow embedding of the
TypeScript sources: the `GitLabClient` class (CI/review classifiers, health
record builder, memoized per-entity fetches, relevance resolver) and the two
pure alerting modules (`assignedAlertDiff` and `ignoredAssignedAlerts`).

Modelling conventions:
* JavaScript `undefined`-able values become `Option`; JS string truthiness
  (`""` and `undefined` are falsy) is `strTruthy`.
* `Date.parse` is a host primitive and is modelled as an explicit parameter
  `parse : String → Option Int` (`none` models `NaN`).
* Network responses are given by an `Env` of response tables; the mutable
  per-cycle caches of the client instance are an explicit `ClientState`
  threaded through every operation, together with a log of the network
  requests actually issued.  The TypeScript `Promise.all` fan-out is
  sequentialised; each fetch is deterministic given `Env`, so results agree.
* JS `Map`/`Set` outputs are modelled as functions (`Int → Option _`,
  `Int → Bool`) updated exactly where the source calls `set`/`add`.
-/

namespace GitlabActionRadar

/-- JS string truthiness for an optional string: `undefined` and `""` are falsy. -/
def strTruthy : Option String → Bool
  | none => false
  | some s => s ≠ ""

/-- Drop leading whitespace characters from a character list. -/
def dropLeadingWhitespace : List Char → List Char
  | [] => []
  | c :: rest => if c.isWhitespace then dropLeadingWhitespace rest else c :: rest

/-- The JS `String.prototype.trim` primitive, modelled by structural recursion:
whitespace is removed from both ends. -/
def jsTrim (s : String) : String :=
  ⟨(dropLeadingWhitespace (dropLeadingWhitespace s.data).reverse).reverse⟩

/-- The JS `String.prototype.toLowerCase` primitive on the ASCII range used by
the platform's status strings. -/
def jsToLower (s : String) : String :=
  ⟨s.data.map Char.toLower⟩

/-- `normalizeStatusValue` from the client: a string value is trimmed and
lowercased, any non-string (modelled as `none`) becomes `""`. -/
def normalizeStatusValue : Option String → String
  | none => ""
  | some s => jsToLower (jsTrim s)

structure UserRef where
  id : Int := 0
  deriving DecidableEq, Repr

structure ApprovalEntry where
  user : UserRef := {}
  deriving DecidableEq, Repr

structure ReviewerEntry where
  id : Int := 0
  state : Option String := none
  deriving DecidableEq, Repr

structure ListPipeline where
  status : String := ""
  deriving DecidableEq, Repr

structure PipelineRef where
  status : Option String := none
  deriving DecidableEq, Repr

structure MergeRequest where
  id : Int := 0
  iid : Int := 0
  project_id : Int := 0
  title : String := ""
  web_url : String := ""
  state : String := ""
  author : Option UserRef := none
  draft : Option Bool := none
  work_in_progress : Option Bool := none
  has_conflicts : Bool := false
  merge_status : String := ""
  pipeline : Option ListPipeline := none
  approvals_required : Option Int := none
  approved_by : Option (List ApprovalEntry) := none
  reviewers : Option (List ReviewerEntry) := none
  deriving DecidableEq, Repr

structure GitLabUser where
  id : Int := 0
  username : String := ""
  name : String := ""
  deriving DecidableEq, Repr

structure MergeRequestApprovals where
  approved_by : List ApprovalEntry := []
  approved : Option Bool := none
  approvals_left : Option Int := none
  deriving DecidableEq, Repr

structure MergeRequestDetails where
  blocking_discussions_resolved : Option Bool := none
  unresolved_discussions_count : Option Int := none
  has_conflicts : Option Bool := none
  merge_status : Option String := none
  detailed_merge_status : Option String := none
  head_pipeline : Option PipelineRef := none
  pipeline : Option PipelineRef := none
  deriving DecidableEq, Repr

structure MergeRequestNote where
  created_at : String := ""
  system : Option Bool := none
  author : Option UserRef := none
  deriving DecidableEq, Repr

structure MergeRequestCommit where
  created_at : Option String := none
  deriving DecidableEq, Repr

inductive CiStatus where
  | success
  | failed
  | running
  | pending
  | canceled
  | skipped
  | manual
  | scheduled
  | created
  | preparing
  | waiting_for_resource
  | unknown
  deriving DecidableEq, Repr

inductive ReviewerReviewStatus where
  | needs_review
  | waiting_for_author
  | new
  deriving DecidableEq, Repr

structure OwnMergeRequestChecks where
  isApproved : Bool := false
  hasUnresolvedComments : Bool := false
  ciStatus : CiStatus := .unknown
  deriving DecidableEq, Repr

structure ReviewerMergeRequestChecks where
  reviewStatus : ReviewerReviewStatus := .new
  reviewerLastCommentedAt : Option String := none
  latestCommitAt : Option String := none
  authorLastCommentedAt : Option String := none
  deriving DecidableEq, Repr

structure MergeRequestHealth where
  mergeRequest : MergeRequest := {}
  ciStatus : CiStatus := .unknown
  hasFailedCi : Bool := false
  hasConflicts : Bool := false
  hasPendingApprovals : Bool := false
  isCreatedByMe : Bool := false
  latestCommitAt : Option String := none
  ownMrChecks : Option OwnMergeRequestChecks := none
  reviewerChecks : Option ReviewerMergeRequestChecks := none
  deriving DecidableEq, Repr

structure MyRelevantMergeRequests where
  currentUserId : Int := 0
  assigned : List MergeRequest := []
  reviewRequested : List MergeRequest := []
  deriving DecidableEq, Repr

structure BuildHealthSignalsOptions where
  includeReviewerChecks : Bool := false
  includeLatestCommitAt : Bool := false
  deriving DecidableEq, Repr

/-- `GitLabClient.getMergeRequestKey`: the stable cache key of a merge request. -/
def getMergeRequestKey (mergeRequest : MergeRequest) : String :=
  toString mergeRequest.project_id ++ ":" ++ toString mergeRequest.iid

/-- `GitLabClient.isDraftMergeRequest`. -/
def isDraftMergeRequest (mergeRequest : MergeRequest) : Bool :=
  mergeRequest.draft == some true || mergeRequest.work_in_progress == some true

/-- `GitLabClient.hasReviewerMarkedReviewed`: the first reviewer entry carrying
the user's id has a normalized state among the four terminal review states. -/
def hasReviewerMarkedReviewed (mergeRequest : MergeRequest) (userId : Int) : Bool :=
  let reviewer := (mergeRequest.reviewers.getD []).find? (fun item => item.id == userId)
  let reviewerState := normalizeStatusValue (reviewer.bind ReviewerEntry.state)
  reviewerState == "reviewed" || reviewerState == "approved" ||
    reviewerState == "requested_changes" || reviewerState == "commented"

/-- `GitLabClient.getNormalizedCiStatus`: details' head-pipeline status, else
details' pipeline status, else (only when no details payload) the list-level
pipeline status; an obtained details payload without usable status gives `""`. -/
def getNormalizedCiStatus (mergeRequest : MergeRequest)
    (details : Option MergeRequestDetails) : String :=
  let detailHeadPipelineStatus :=
    normalizeStatusValue ((details.bind MergeRequestDetails.head_pipeline).bind PipelineRef.status)
  if detailHeadPipelineStatus ≠ "" then detailHeadPipelineStatus
  else
    let detailPipelineStatus :=
      normalizeStatusValue ((details.bind MergeRequestDetails.pipeline).bind PipelineRef.status)
    if detailPipelineStatus ≠ "" then detailPipelineStatus
    else
      match details with
      | some _ => ""
      | none => normalizeStatusValue (mergeRequest.pipeline.map ListPipeline.status)

/-- `GitLabClient.isCiFailedStatus`: a raw `failed` is kept unless the details
payload's detailed merge status normalizes to an explicitly healthy value. -/
def isCiFailedStatus (normalizedCiStatus : String)
    (details : Option MergeRequestDetails) : Bool :=
  if normalizedCiStatus ≠ "failed" then false
  else
    let detailedMergeStatus :=
      normalizeStatusValue (details.bind MergeRequestDetails.detailed_merge_status)
    if detailedMergeStatus = "" then true
    else if detailedMergeStatus = "can_be_merged" ∨ detailedMergeStatus = "mergeable" then false
    else true

/-- `GitLabClient.toCiStatus`: canonicalization of the normalized raw status. -/
def toCiStatus (normalizedCiStatus : String)
    (details : Option MergeRequestDetails) : CiStatus :=
  if normalizedCiStatus = "" then .unknown
  else if normalizedCiStatus = "failed" then
    if isCiFailedStatus normalizedCiStatus details then .failed else .unknown
  else if normalizedCiStatus = "success" then .success
  else if normalizedCiStatus = "running" then .running
  else if normalizedCiStatus = "pending" then .pending
  else if normalizedCiStatus = "canceled" then .canceled
  else if normalizedCiStatus = "skipped" then .skipped
  else if normalizedCiStatus = "manual" then .manual
  else if normalizedCiStatus = "scheduled" then .scheduled
  else if normalizedCiStatus = "created" then .created
  else if normalizedCiStatus = "preparing" then .preparing
  else if normalizedCiStatus = "waiting_for_resource" then .waiting_for_resource
  else .unknown

/-- `GitLabClient.hasMergeConflict`. -/
def hasMergeConflict (mergeRequest : MergeRequest)
    (details : Option MergeRequestDetails) : Bool :=
  (details.bind MergeRequestDetails.has_conflicts) == some true ||
    (details.bind MergeRequestDetails.merge_status) == some "cannot_be_merged" ||
    mergeRequest.has_conflicts ||
    mergeRequest.merge_status == "cannot_be_merged"

/-- `GitLabClient.isLaterThan` with `Date.parse` abstracted as `parse`
(`none` models `NaN`); a missing or empty side (the JS `!left || !right`
falsy guard), or a parse failure, is `false`. -/
def isLaterThan (parse : String → Option Int) (left right : Option String) : Bool :=
  match left, right with
  | some l, some r =>
    if l = "" ∨ r = "" then false
    else
      match parse l, parse r with
      | some leftMs, some rightMs => rightMs < leftMs
      | _, _ => false
  | _, _ => false

/-- One step of the maximum-`created_at` scan in `GitLabClient.getLatestCommitAt`:
skip commits with a falsy or unparseable timestamp, keep a strictly greater one. -/
def pickLatestCommit (parse : String → Option Int)
    (acc : Option (String × Int)) (commit : MergeRequestCommit) :
    Option (String × Int) :=
  match commit.created_at with
  | none => acc
  | some commitCreatedAt =>
    if commitCreatedAt = "" then acc
    else
      match parse commitCreatedAt with
      | none => acc
      | some commitCreatedAtMs =>
        match acc with
        | none => some (commitCreatedAt, commitCreatedAtMs)
        | some best => if best.2 < commitCreatedAtMs then some (commitCreatedAt, commitCreatedAtMs) else acc

/-- The timestamp-selection loop of `GitLabClient.getLatestCommitAt` on an
already-fetched commit list. -/
def latestCommitFrom (parse : String → Option Int)
    (commits : List MergeRequestCommit) : Option String :=
  (commits.foldl (pickLatestCommit parse) none).map Prod.fst

/-- The update of `reviewerLastCommentedAt` for one non-system note: the note
takes the reviewer slot when it is authored by the current user and the slot is
still falsy. -/
def reviewerSlotNext (currentUserId : Int) (note : MergeRequestNote)
    (reviewerLastCommentedAt : Option String) : Option String :=
  if note.author.map UserRef.id == some currentUserId &&
      !(strTruthy reviewerLastCommentedAt) then
    some note.created_at
  else reviewerLastCommentedAt

/-- The update of `authorLastCommentedAt` for one non-system note (the
`else if` branch): only when the reviewer branch did not fire, the merge
request has a numeric author id matching the note's author, and the author
slot is still falsy. -/
def authorSlotNext (currentUserId : Int) (mrAuthorId : Option Int)
    (note : MergeRequestNote)
    (reviewerLastCommentedAt authorLastCommentedAt : Option String) : Option String :=
  if !(note.author.map UserRef.id == some currentUserId &&
        !(strTruthy reviewerLastCommentedAt)) &&
      mrAuthorId.isSome && note.author.map UserRef.id == mrAuthorId &&
      !(strTruthy authorLastCommentedAt) then
    some note.created_at
  else authorLastCommentedAt

/-- The note scan of `GitLabClient.buildReviewerMergeRequestChecks`: newest-first
notes, skipping system notes, capturing the first note by the current user and
the first remaining note by the merge request author, with the early break once
both captured timestamps are truthy. -/
def scanNotes (currentUserId : Int) (mrAuthorId : Option Int) :
    List MergeRequestNote → Option String → Option String →
    Option String × Option String
  | [], reviewerLastCommentedAt, authorLastCommentedAt =>
    (reviewerLastCommentedAt, authorLastCommentedAt)
  | note :: rest, reviewerLastCommentedAt, authorLastCommentedAt =>
    if note.system.getD false then
      scanNotes currentUserId mrAuthorId rest reviewerLastCommentedAt authorLastCommentedAt
    else
      if strTruthy (reviewerSlotNext currentUserId note reviewerLastCommentedAt) &&
          strTruthy (authorSlotNext currentUserId mrAuthorId note
            reviewerLastCommentedAt authorLastCommentedAt) then
        (reviewerSlotNext currentUserId note reviewerLastCommentedAt,
          authorSlotNext currentUserId mrAuthorId note
            reviewerLastCommentedAt authorLastCommentedAt)
      else
        scanNotes currentUserId mrAuthorId rest
          (reviewerSlotNext currentUserId note reviewerLastCommentedAt)
          (authorSlotNext currentUserId mrAuthorId note
            reviewerLastCommentedAt authorLastCommentedAt)

/-- `GitLabClient.resolveReviewStatus`. -/
def resolveReviewStatus (parse : String → Option Int)
    (reviewerLastCommentedAt latestCommitAt authorLastCommentedAt : Option String) :
    ReviewerReviewStatus :=
  if !(strTruthy reviewerLastCommentedAt) then .new
  else if isLaterThan parse latestCommitAt reviewerLastCommentedAt ||
      isLaterThan parse authorLastCommentedAt reviewerLastCommentedAt then .needs_review
  else .waiting_for_author

/-! ### Effectful layer: response environment, per-cycle caches, request log -/

/-- A non-2xx HTTP response: numeric status and status text. -/
structure HttpFailure where
  status : Nat := 0
  statusText : String := ""
  deriving DecidableEq, Repr

/-- The message of the `Error` thrown by `GitLabClient.request` on a non-2xx
response. -/
def remoteApiErrorMessage (e : HttpFailure) : String :=
  "GitLab API error: " ++ toString e.status ++ " " ++ e.statusText

/-- The four per-merge-request resource kinds the client memoizes. -/
inductive ResourceKind where
  | approvalsK
  | detailsK
  | notesK
  | commitsK
  deriving DecidableEq, Repr

/-- The remote platform as seen through `GitLabClient.request`: each logical
resource either parses to a payload or fails (non-2xx / network).  Per-entity
resources are tables keyed by the merge-request cache key.  `dateParse` models
the host's `Date.parse`. -/
structure Env where
  userResp : Except HttpFailure GitLabUser
  assignedResp : Except HttpFailure (List MergeRequest)
  reviewerResp : Except HttpFailure (List MergeRequest)
  approvalsResp : String → Except HttpFailure MergeRequestApprovals
  detailsResp : String → Except HttpFailure MergeRequestDetails
  notesResp : String → Except HttpFailure (List MergeRequestNote)
  commitsResp : String → Except HttpFailure (List MergeRequestCommit)
  dateParse : String → Option Int

/-- The mutable fields of one `GitLabClient` instance: the four memoization
caches (key ↦ settled lookup result, `none` = tolerated failure), plus a log of
the per-entity network requests actually issued. -/
structure ClientState where
  approvalsCache : List (String × Option MergeRequestApprovals) := []
  detailsCache : List (String × Option MergeRequestDetails) := []
  notesCache : List (String × Option (List MergeRequestNote)) := []
  commitsCache : List (String × Option (List MergeRequestCommit)) := []
  requestLog : List (ResourceKind × String) := []
  deriving DecidableEq, Repr

/-- A fresh client instance: empty caches, no requests issued. -/
def initialClientState : ClientState := {}

/-- `Map.get` on a cache modelled as an association list. -/
def cacheGet {β : Type} (cache : List (String × β)) (key : String) : Option β :=
  (cache.find? (fun entry => entry.1 == key)).map Prod.snd

/-- `GitLabClient.getMergeRequestApprovals`: cached per-entity lookup whose
failure is swallowed into an absent value (`.catch(() => undefined)`). -/
def getMergeRequestApprovals (env : Env) (mergeRequest : MergeRequest)
    (s : ClientState) : Option MergeRequestApprovals × ClientState :=
  let key := getMergeRequestKey mergeRequest
  match cacheGet s.approvalsCache key with
  | some cached => (cached, s)
  | none =>
    let result := (env.approvalsResp key).toOption
    (result,
      { s with
        approvalsCache := s.approvalsCache ++ [(key, result)]
        requestLog := s.requestLog ++ [(ResourceKind.approvalsK, key)] })

/-- `GitLabClient.getMergeRequestDetails`. -/
def getMergeRequestDetails (env : Env) (mergeRequest : MergeRequest)
    (s : ClientState) : Option MergeRequestDetails × ClientState :=
  let key := getMergeRequestKey mergeRequest
  match cacheGet s.detailsCache key with
  | some cached => (cached, s)
  | none =>
    let result := (env.detailsResp key).toOption
    (result,
      { s with
        detailsCache := s.detailsCache ++ [(key, result)]
        requestLog := s.requestLog ++ [(ResourceKind.detailsK, key)] })

/-- `GitLabClient.getMergeRequestNotes`. -/
def getMergeRequestNotes (env : Env) (mergeRequest : MergeRequest)
    (s : ClientState) : Option (List MergeRequestNote) × ClientState :=
  let key := getMergeRequestKey mergeRequest
  match cacheGet s.notesCache key with
  | some cached => (cached, s)
  | none =>
    let result := (env.notesResp key).toOption
    (result,
      { s with
        notesCache := s.notesCache ++ [(key, result)]
        requestLog := s.requestLog ++ [(ResourceKind.notesK, key)] })

/-- `GitLabClient.getMergeRequestCommits`. -/
def getMergeRequestCommits (env : Env) (mergeRequest : MergeRequest)
    (s : ClientState) : Option (List MergeRequestCommit) × ClientState :=
  let key := getMergeRequestKey mergeRequest
  match cacheGet s.commitsCache key with
  | some cached => (cached, s)
  | none =>
    let result := (env.commitsResp key).toOption
    (result,
      { s with
        commitsCache := s.commitsCache ++ [(key, result)]
        requestLog := s.requestLog ++ [(ResourceKind.commitsK, key)] })

/-- `GitLabClient.getLatestCommitAt`: fetch commits (cached) and take the
maximum parsed `created_at`. -/
def getLatestCommitAt (env : Env) (mergeRequest : MergeRequest)
    (s : ClientState) : Option String × ClientState :=
  let (commits, s1) := getMergeRequestCommits env mergeRequest s
  match commits with
  | none => (none, s1)
  | some cs => if cs.isEmpty then (none, s1) else (latestCommitFrom env.dateParse cs, s1)

/-- `GitLabClient.isReviewedByUser`: reviewer-entry state, embedded approved-by
list, else the (cached) approvals lookup. -/
def isReviewedByUser (env : Env) (mergeRequest : MergeRequest) (userId : Int)
    (s : ClientState) : Bool × ClientState :=
  if hasReviewerMarkedReviewed mergeRequest userId then (true, s)
  else if (mergeRequest.approved_by.getD []).any (fun approval => approval.user.id == userId) then
    (true, s)
  else
    let (approvals, s1) := getMergeRequestApprovals env mergeRequest s
    (((approvals.map MergeRequestApprovals.approved_by).getD []).any
      (fun approval => approval.user.id == userId), s1)

/-- `GitLabClient.buildOwnMergeRequestChecks`. -/
def buildOwnMergeRequestChecks (env : Env) (mergeRequest : MergeRequest)
    (s : ClientState) : OwnMergeRequestChecks × ClientState :=
  let (approvals, s1) := getMergeRequestApprovals env mergeRequest s
  let (details, s2) := getMergeRequestDetails env mergeRequest s1
  let isApproved :=
    (approvals.bind MergeRequestApprovals.approved) == some true ||
      (approvals.bind MergeRequestApprovals.approvals_left) == some 0 ||
      decide (0 < (approvals.map (fun a => a.approved_by.length)).getD 0)
  let hasUnresolvedComments :=
    (match details.bind MergeRequestDetails.unresolved_discussions_count with
      | some count => decide (0 < count)
      | none => false) ||
      (details.bind MergeRequestDetails.blocking_discussions_resolved) == some false
  let normalizedCiStatus := getNormalizedCiStatus mergeRequest details
  let ciStatus := toCiStatus normalizedCiStatus details
  ({ isApproved := isApproved
     hasUnresolvedComments := hasUnresolvedComments
     ciStatus := ciStatus }, s2)

/-- `GitLabClient.buildReviewerMergeRequestChecks`: scan the (cached) notes,
reuse a caller-provided latest-commit timestamp when given (`??`), classify. -/
def buildReviewerMergeRequestChecks (env : Env) (mergeRequest : MergeRequest)
    (currentUserId : Int) (latestCommitAtInput : Option String)
    (s : ClientState) : ReviewerMergeRequestChecks × ClientState :=
  let (notes, s1) := getMergeRequestNotes env mergeRequest s
  let scanned :=
    scanNotes currentUserId (mergeRequest.author.map UserRef.id) (notes.getD []) none none
  let (latestCommitAt, s2) :=
    match latestCommitAtInput with
    | some t => (some t, s1)
    | none => getLatestCommitAt env mergeRequest s1
  let reviewStatus := resolveReviewStatus env.dateParse scanned.1 latestCommitAt scanned.2
  ({ reviewStatus := reviewStatus
     reviewerLastCommentedAt := scanned.1
     latestCommitAt := latestCommitAt
     authorLastCommentedAt := scanned.2 }, s2)

/-- The per-merge-request body of `GitLabClient.buildHealthSignals`. -/
def buildOneHealthSignal (env : Env) (currentUserId : Int)
    (options : BuildHealthSignalsOptions) (mergeRequest : MergeRequest)
    (s : ClientState) : MergeRequestHealth × ClientState :=
  let approvalsRequired := mergeRequest.approvals_required.getD 0
  let approvedCount := ((mergeRequest.approved_by.getD []).length : Int)
  let isCreatedByMe := (mergeRequest.author.map UserRef.id) == some currentUserId
  let shouldIncludeLatestCommitAt :=
    options.includeLatestCommitAt || options.includeReviewerChecks
  let (details, s1) := getMergeRequestDetails env mergeRequest s
  let (ownMrChecks, s2) :=
    if isCreatedByMe then
      let (checks, s2) := buildOwnMergeRequestChecks env mergeRequest s1
      (some checks, s2)
    else (none, s1)
  let (latestCommitAt, s3) :=
    if shouldIncludeLatestCommitAt then getLatestCommitAt env mergeRequest s2
    else (none, s2)
  let (reviewerChecks, s4) :=
    if options.includeReviewerChecks then
      let (checks, s4) :=
        buildReviewerMergeRequestChecks env mergeRequest currentUserId latestCommitAt s3
      (some checks, s4)
    else (none, s3)
  let ciStatus :=
    (ownMrChecks.map OwnMergeRequestChecks.ciStatus).getD
      (toCiStatus (getNormalizedCiStatus mergeRequest details) details)
  let hasFailedCi := ciStatus == .failed
  ({ mergeRequest := mergeRequest
     ciStatus := ciStatus
     hasFailedCi := hasFailedCi
     hasConflicts := hasMergeConflict mergeRequest details
     hasPendingApprovals := decide (approvedCount < approvalsRequired)
     isCreatedByMe := isCreatedByMe
     latestCommitAt := latestCommitAt
     ownMrChecks := ownMrChecks
     reviewerChecks := reviewerChecks }, s4)

/-- One fold step of `buildHealthSignals`: append the record, thread the state. -/
def buildHealthStep (env : Env) (currentUserId : Int)
    (options : BuildHealthSignalsOptions)
    (acc : List MergeRequestHealth × ClientState) (mergeRequest : MergeRequest) :
    List MergeRequestHealth × ClientState :=
  let (health, s1) := buildOneHealthSignal env currentUserId options mergeRequest acc.2
  (acc.1 ++ [health], s1)

/-- `GitLabClient.buildHealthSignals` (the `Promise.all` fan-out sequentialised). -/
def buildHealthSignals (env : Env) (mergeRequests : List MergeRequest)
    (currentUserId : Int) (options : BuildHealthSignalsOptions)
    (s : ClientState) : List MergeRequestHealth × ClientState :=
  mergeRequests.foldl (buildHealthStep env currentUserId options) ([], s)

/-- One `Map.set` step of `GitLabClient.dedupeById`: replace the value in place
when the id is already present, append otherwise. -/
def setById (acc : List (Int × MergeRequest)) (mergeRequest : MergeRequest) :
    List (Int × MergeRequest) :=
  if acc.any (fun entry => entry.1 == mergeRequest.id) then
    acc.map (fun entry =>
      if entry.1 == mergeRequest.id then (entry.1, mergeRequest) else entry)
  else acc ++ [(mergeRequest.id, mergeRequest)]

/-- `GitLabClient.dedupeById`: insertion-ordered `Map` keyed by merge-request
id, values collected back into a list. -/
def dedupeById (mergeRequests : List MergeRequest) : List MergeRequest :=
  (mergeRequests.foldl setById []).map Prod.snd

/-- One step of the reviewed-state fan-out: record the flag, thread the state. -/
def reviewedFoldStep (env : Env) (currentUserId : Int)
    (acc : List (MergeRequest × Bool) × ClientState) (mergeRequest : MergeRequest) :
    List (MergeRequest × Bool) × ClientState :=
  let (reviewedByMe, s1) := isReviewedByUser env mergeRequest currentUserId acc.2
  (acc.1 ++ [(mergeRequest, reviewedByMe)], s1)

/-- `GitLabClient.listMyRelevantMergeRequests`: identity and the two scoped
lists are fatal requests; the reviewer-scoped set is deduplicated, drafts are
dropped, then merge requests already reviewed by the user are dropped. -/
def listMyRelevantMergeRequests (env : Env) (s : ClientState) :
    Except HttpFailure MyRelevantMergeRequests × ClientState :=
  match env.userResp with
  | .error e => (.error e, s)
  | .ok currentUser =>
    match env.assignedResp with
    | .error e => (.error e, s)
    | .ok assigned =>
      match env.reviewerResp with
      | .error e => (.error e, s)
      | .ok reviewRequested =>
        let filteredReviewRequested :=
          (dedupeById reviewRequested).filter (fun mergeRequest => !(isDraftMergeRequest mergeRequest))
        let (reviewRequestedWithReviewState, s1) :=
          filteredReviewRequested.foldl (reviewedFoldStep env currentUser.id)
            (([] : List (MergeRequest × Bool)), s)
        (.ok
          { currentUserId := currentUser.id
            assigned := dedupeById assigned
            reviewRequested :=
              (reviewRequestedWithReviewState.filter (fun item => !item.2)).map Prod.fst },
          s1)

/-! ### `assignedAlertDiff`: snapshot build and newly-risky detection -/

/-- One entry of the per-cycle alert snapshot. -/
structure AssignedAlertSnapshot where
  hasConflicts : Bool := false
  hasFailedCi : Bool := false
  deriving DecidableEq, Repr

structure AssignedAlertDiff where
  newlyConflicted : List MergeRequestHealth := []
  newlyFailedCi : List MergeRequestHealth := []
  deriving DecidableEq, Repr

/-- One `Map.set` step of `buildAssignedAlertSnapshot`. -/
def snapshotStep (snapshot : Int → Option AssignedAlertSnapshot)
    (item : MergeRequestHealth) : Int → Option AssignedAlertSnapshot :=
  fun key =>
    if key = item.mergeRequest.id then
      some { hasConflicts := item.hasConflicts, hasFailedCi := item.hasFailedCi }
    else snapshot key

/-- `buildAssignedAlertSnapshot`: one `Map.set` per item, keyed by the
merge-request id (a later duplicate overwrites an earlier one). -/
def buildAssignedAlertSnapshot (items : List MergeRequestHealth) :
    Int → Option AssignedAlertSnapshot :=
  items.foldl snapshotStep (fun _ => none)

/-- The push condition of `detectAssignedAlertDiff` for the conflict signal:
risky now, and the previous snapshot entry is absent or not `true`. -/
def newlyConflictedFlag (previousSnapshot : Int → Option AssignedAlertSnapshot)
    (item : MergeRequestHealth) : Bool :=
  item.hasConflicts &&
    !(((previousSnapshot item.mergeRequest.id).map AssignedAlertSnapshot.hasConflicts).getD false)

/-- The push condition of `detectAssignedAlertDiff` for the failed-CI signal. -/
def newlyFailedCiFlag (previousSnapshot : Int → Option AssignedAlertSnapshot)
    (item : MergeRequestHealth) : Bool :=
  item.hasFailedCi &&
    !(((previousSnapshot item.mergeRequest.id).map AssignedAlertSnapshot.hasFailedCi).getD false)

/-- The loop body of `detectAssignedAlertDiff` for one current item. -/
def detectStep (previousSnapshot : Int → Option AssignedAlertSnapshot)
    (acc : AssignedAlertDiff) (item : MergeRequestHealth) : AssignedAlertDiff :=
  let acc1 :=
    if newlyConflictedFlag previousSnapshot item then
      { acc with newlyConflicted := acc.newlyConflicted ++ [item] }
    else acc
  if newlyFailedCiFlag previousSnapshot item then
    { acc1 with newlyFailedCi := acc1.newlyFailedCi ++ [item] }
  else acc1

/-- `detectAssignedAlertDiff`: one pass over the current items, pushing each
item onto the per-signal list whenever its push condition holds. -/
def detectAssignedAlertDiff (previousSnapshot : Int → Option AssignedAlertSnapshot)
    (currentItems : List MergeRequestHealth) : AssignedAlertDiff :=
  currentItems.foldl (detectStep previousSnapshot) {}

/-! ### `ignoredAssignedAlerts`: ignore-until-new-commit suppression -/

structure IgnoredAssignedAlertState where
  commitSignature : String := ""
  ignoreConflicts : Bool := false
  ignoreFailedCi : Bool := false
  deriving DecidableEq, Repr

structure ActiveIgnoredAssignedSignals where
  ignoreConflicts : Bool := false
  ignoreFailedCi : Bool := false
  deriving DecidableEq, Repr

/-- `toCommitSignature`: the trimmed latest-commit timestamp, or the
`no-commit` sentinel when it is absent or trims to empty. -/
def toCommitSignature (latestCommitAt : Option String) : String :=
  match latestCommitAt.map jsTrim with
  | some trimmed => if trimmed ≠ "" then trimmed else "no-commit"
  | none => "no-commit"

/-- The three outputs of `applyIgnoredAssignedAlertsUntilNewCommit`
(`Set`/`Map`s modelled as functions). -/
structure ApplyIgnoredResult where
  ignoredMergeRequestIds : Int → Bool
  activeIgnoredSignals : Int → Option ActiveIgnoredAssignedSignals
  nextState : Int → Option IgnoredAssignedAlertState

/-- The loop body of `applyIgnoredAssignedAlertsUntilNewCommit` for one health
record. -/
def applyIgnoredStep (previousState : Int → Option IgnoredAssignedAlertState)
    (acc : ApplyIgnoredResult) (item : MergeRequestHealth) : ApplyIgnoredResult :=
  let mergeRequestId := item.mergeRequest.id
  match previousState mergeRequestId with
  | none => acc
  | some previous =>
    let commitSignature := toCommitSignature item.latestCommitAt
    if previous.commitSignature ≠ commitSignature then acc
    else
      let ignoreConflicts := previous.ignoreConflicts && item.hasConflicts
      let ignoreFailedCi := previous.ignoreFailedCi && item.hasFailedCi
      if !ignoreConflicts && !ignoreFailedCi then acc
      else
        { ignoredMergeRequestIds := fun key =>
            if key = mergeRequestId then true else acc.ignoredMergeRequestIds key
          activeIgnoredSignals := fun key =>
            if key = mergeRequestId then
              some { ignoreConflicts := ignoreConflicts, ignoreFailedCi := ignoreFailedCi }
            else acc.activeIgnoredSignals key
          nextState := fun key =>
            if key = mergeRequestId then some previous else acc.nextState key }

/-- The empty outputs the suppressor starts from. -/
def emptyApplyResult : ApplyIgnoredResult :=
  { ignoredMergeRequestIds := fun _ => false
    activeIgnoredSignals := fun _ => none
    nextState := fun _ => none }

/-- `applyIgnoredAssignedAlertsUntilNewCommit`. -/
def applyIgnoredAssignedAlertsUntilNewCommit (items : List MergeRequestHealth)
    (previousState : Int → Option IgnoredAssignedAlertState) : ApplyIgnoredResult :=
  items.foldl (applyIgnoredStep previousState) emptyApplyResult

/-! ### Specification-side definitions and proof-facing vocabulary -/

/-- Append an id unless it is already present (one step of first-occurrence
order). -/
def insertIdIfNew (acc : List Int) (i : Int) : List Int :=
  if i ∈ acc then acc else acc ++ [i]

/-- Modelled from the spec: the ids of a list in order of first occurrence,
each id once.  Used to compare `dedupeById`'s output order against the spec's
"order of first occurrence". -/
def firstOccIds (ids : List Int) : List Int :=
  ids.foldl insertIdIfNew []

/-- Semantic reading of `isLaterThan ... = true`: both timestamps are present
and non-empty, both parse, and the left one is strictly greater. -/
def StrictlyLaterThan (parse : String → Option Int) (left right : Option String) : Prop :=
  ∃ l r leftMs rightMs, left = some l ∧ right = some r ∧ l ≠ "" ∧ r ≠ "" ∧
    parse l = some leftMs ∧ parse r = some rightMs ∧ rightMs < leftMs

/-- A note that makes the scanner treat the reviewer as having commented:
non-system, authored by the current user, with a truthy timestamp. -/
def isReviewerNote (currentUserId : Int) (note : MergeRequestNote) : Bool :=
  !(note.system.getD false) && (note.author.map UserRef.id) == some currentUserId &&
    note.created_at ≠ ""

/-- The entry stored at a key of an insertion-ordered association map. -/
def entryAt (acc : List (Int × MergeRequest)) (key : Int) : Option MergeRequest :=
  (acc.find? (fun entry => entry.1 == key)).map Prod.snd

/-- Modelled from the spec: the last record in a list carrying a given
merge-request id ("the last-seen record"). -/
def lastRecordWithId (mergeRequests : List MergeRequest) (key : Int) :
    Option MergeRequest :=
  mergeRequests.foldl (fun cur x => if x.id = key then some x else cur) none

/-- The keep condition of the ignore suppressor for one record with a prior
entry: unchanged commit signature, and at least one ignored signal still true. -/
def keepsIgnoredEntry (previous : IgnoredAssignedAlertState)
    (item : MergeRequestHealth) : Prop :=
  toCommitSignature item.latestCommitAt = previous.commitSignature ∧
    ((previous.ignoreConflicts = true ∧ item.hasConflicts = true) ∨
      (previous.ignoreFailedCi = true ∧ item.hasFailedCi = true))

instance (previous : IgnoredAssignedAlertState) (item : MergeRequestHealth) :
    Decidable (keepsIgnoredEntry previous item) := by
  unfold keepsIgnoredEntry; infer_instance

/-- The approvals cache only holds values the environment would return: the
state a fresh client is in, and an invariant of every cached lookup. -/
def approvalsCacheConsistent (env : Env) (s : ClientState) : Prop :=
  ∀ key v, cacheGet s.approvalsCache key = some v → v = (env.approvalsResp key).toOption

/-- The pure value `isReviewedByUser` computes once the approvals cache is
consistent with the environment. -/
def isReviewedByUserPure (env : Env) (mergeRequest : MergeRequest) (userId : Int) : Bool :=
  hasReviewerMarkedReviewed mergeRequest userId ||
    (mergeRequest.approved_by.getD []).any (fun approval => approval.user.id == userId) ||
    ((((env.approvalsResp (getMergeRequestKey mergeRequest)).toOption.map
        MergeRequestApprovals.approved_by).getD []).any
      (fun approval => approval.user.id == userId))

/-- One memoized per-entity lookup, by resource kind (result discarded). -/
def runGetter (env : Env) (call : ResourceKind × MergeRequest) (s : ClientState) :
    ClientState :=
  match call.1 with
  | .approvalsK => (getMergeRequestApprovals env call.2 s).2
  | .detailsK => (getMergeRequestDetails env call.2 s).2
  | .notesK => (getMergeRequestNotes env call.2 s).2
  | .commitsK => (getMergeRequestCommits env call.2 s).2

/-- Any sequence of memoized per-entity lookups within one derivation pass. -/
def runCalls (env : Env) (calls : List (ResourceKind × MergeRequest))
    (s : ClientState) : ClientState :=
  calls.foldl (fun st call => runGetter env call st) s

/-- One resource kind's cache domain agrees with the request log. -/
def logMatchesCache {β : Type} (kind : ResourceKind)
    (log : List (ResourceKind × String)) (cache : List (String × β)) : Prop :=
  ∀ key, (kind, key) ∈ log ↔ (cacheGet cache key).isSome

/-- The accounting invariant of the memoization caches: no request was issued
twice, and a (kind, key) request was issued exactly when that lookup is cached. -/
def goodState (s : ClientState) : Prop :=
  s.requestLog.Nodup ∧
    logMatchesCache .approvalsK s.requestLog s.approvalsCache ∧
    logMatchesCache .detailsK s.requestLog s.detailsCache ∧
    logMatchesCache .notesK s.requestLog s.notesCache ∧
    logMatchesCache .commitsK s.requestLog s.commitsCache

/-! ### Concrete sample inputs used by witnesses and counterexamples -/

/-- A merge request whose list-level pipeline reports `failed`. -/
def mrListFailed : MergeRequest := { id := 1, iid := 1, project_id := 10, pipeline := some { status := "failed" } }

/-- A details payload with a failed head pipeline but an explicitly mergeable
detailed merge status. -/
def detailsHealthyFailed : MergeRequestDetails :=
  { head_pipeline := some { status := some "failed" }, detailed_merge_status := some "can_be_merged" }

/-- A details payload with a failed head pipeline and a `not_approved`
detailed merge status. -/
def detailsNotApproved : MergeRequestDetails :=
  { head_pipeline := some { status := some "failed" }, detailed_merge_status := some "not_approved" }

/-- A date-parse table for concrete timestamp literals `"c1" < "c2" < "c3"`. -/
def parseTable : String → Option Int :=
  fun s => if s = "c1" then some 1 else if s = "c2" then some 2 else if s = "c3" then some 3 else none

/-- A non-system note by user 7 whose timestamp is the empty string. -/
def emptyTimestampNote : MergeRequestNote :=
  { created_at := "", system := some false, author := some { id := 7 } }

/-- A concrete environment whose identity and list requests succeed but whose
per-entity lookups all fail. -/
def failingEnv : Env :=
  { userResp := .ok { id := 99, username := "me", name := "Me" }
    assignedResp := .ok []
    reviewerResp := .ok []
    approvalsResp := fun _ => .error { status := 500, statusText := "Internal Server Error" }
    detailsResp := fun _ => .error { status := 404, statusText := "Not Found" }
    notesResp := fun _ => .error { status := 404, statusText := "Not Found" }
    commitsResp := fun _ => .error { status := 404, statusText := "Not Found" }
    dateParse := parseTable }

/-- An assignee-scoped sample: id 1 occurs twice (titles `a` then `b`). -/
def assignedSample : List MergeRequest :=
  [{ id := 1, title := "a" }, { id := 2 }, { id := 1, title := "b" }]

/-- A reviewer-scoped sample: a draft, an already-approved one, a plain one. -/
def reviewerSample : List MergeRequest :=
  [{ id := 3, draft := some true },
   { id := 4, approved_by := some [{ user := { id := 99 } }] },
   { id := 5 }]

/-- `failingEnv` with successful scoped lists for the relevance resolver. -/
def relevanceEnv : Env :=
  { failingEnv with assignedResp := .ok assignedSample, reviewerResp := .ok reviewerSample }

/-! ### Theorems -/

/-- The canonical result of classifying a raw `failed` status: `unknown`
exactly when the detailed merge status normalizes to a healthy value. -/
theorem toCiStatus_failed_eq (details : Option MergeRequestDetails) :
    toCiStatus "failed" details =
      if normalizeStatusValue (details.bind MergeRequestDetails.detailed_merge_status) = "can_be_merged" ∨
          normalizeStatusValue (details.bind MergeRequestDetails.detailed_merge_status) = "mergeable" then
        CiStatus.unknown
      else CiStatus.failed := by
  by_cases h1 : normalizeStatusValue (details.bind MergeRequestDetails.detailed_merge_status) = ""
  · simp [toCiStatus, isCiFailedStatus, h1]
  · by_cases h2 : normalizeStatusValue (details.bind MergeRequestDetails.detailed_merge_status) = "can_be_merged"
    · simp [toCiStatus, isCiFailedStatus, h2]
    · by_cases h3 : normalizeStatusValue (details.bind MergeRequestDetails.detailed_merge_status) = "mergeable"
      · simp [toCiStatus, isCiFailedStatus, h3]
      · simp [toCiStatus, isCiFailedStatus, h1, h2, h3]

/-- C1: when the resolved raw CI status is `failed`, the canonical status is
`unknown` exactly when the details payload carries a detailed merge status
normalizing to `can_be_merged` or `mergeable`, and `failed` otherwise; in
particular raw `failed` with no details stays `failed`, `not_approved` stays
`failed`, and raw `success` maps to `success`. -/
theorem ciFailedFalsePositiveSuppression (mr : MergeRequest)
    (details : Option MergeRequestDetails) :
    (getNormalizedCiStatus mr details = "failed" →
      ((toCiStatus (getNormalizedCiStatus mr details) details = CiStatus.unknown ↔
          (∃ d raw, details = some d ∧ d.detailed_merge_status = some raw ∧
            (normalizeStatusValue (some raw) = "can_be_merged" ∨
              normalizeStatusValue (some raw) = "mergeable"))) ∧
        (toCiStatus (getNormalizedCiStatus mr details) details = CiStatus.failed ∨
          toCiStatus (getNormalizedCiStatus mr details) details = CiStatus.unknown) ∧
        (details = none →
          toCiStatus (getNormalizedCiStatus mr details) details = CiStatus.failed) ∧
        (∀ d, details = some d → d.detailed_merge_status = some "not_approved" →
          toCiStatus (getNormalizedCiStatus mr details) details = CiStatus.failed))) ∧
    (getNormalizedCiStatus mr details = "success" →
      toCiStatus (getNormalizedCiStatus mr details) details = CiStatus.success) := by
  have hbind : ∀ raw : String,
      details.bind MergeRequestDetails.detailed_merge_status = some raw ↔
        ∃ d, details = some d ∧ d.detailed_merge_status = some raw := by
    intro raw; cases details <;> simp
  constructor
  · intro hraw
    rw [hraw, toCiStatus_failed_eq]
    refine ⟨?_, ?_, ?_, ?_⟩
    · constructor
      · intro h
        by_cases hcond : normalizeStatusValue (details.bind MergeRequestDetails.detailed_merge_status) = "can_be_merged" ∨
            normalizeStatusValue (details.bind MergeRequestDetails.detailed_merge_status) = "mergeable"
        · obtain ⟨raw, hrawEq⟩ : ∃ raw, details.bind MergeRequestDetails.detailed_merge_status = some raw := by
            cases hEq : details.bind MergeRequestDetails.detailed_merge_status with
            | none =>
              exfalso
              rw [hEq] at hcond
              revert hcond; decide
            | some raw => exact ⟨raw, rfl⟩
          obtain ⟨d, hd, hdm⟩ := (hbind raw).mp hrawEq
          refine ⟨d, raw, hd, hdm, ?_⟩
          rw [hrawEq] at hcond
          exact hcond
        · rw [if_neg hcond] at h
          exact absurd h (by decide)
      · rintro ⟨d, raw, hd, hdm, hnorm⟩
        have : details.bind MergeRequestDetails.detailed_merge_status = some raw :=
          (hbind raw).mpr ⟨d, hd, hdm⟩
        rw [if_pos (by rw [this]; exact hnorm)]
    · by_cases hcond : normalizeStatusValue (details.bind MergeRequestDetails.detailed_merge_status) = "can_be_merged" ∨
          normalizeStatusValue (details.bind MergeRequestDetails.detailed_merge_status) = "mergeable"
      · rw [if_pos hcond]; exact Or.inr rfl
      · rw [if_neg hcond]; exact Or.inl rfl
    · intro hnone
      rw [hnone]
      decide
    · intro d hd hdm
      have : details.bind MergeRequestDetails.detailed_merge_status = some "not_approved" :=
        (hbind "not_approved").mpr ⟨d, hd, hdm⟩
      rw [if_neg (by rw [this]; decide)]
  · intro hraw
    rw [hraw]
    simp [toCiStatus]

/-- Witness for C1: a failed head pipeline together with a `can_be_merged`
detailed merge status is downgraded to `unknown`. -/
theorem ciFailedFalsePositiveSuppression_witness :
    getNormalizedCiStatus mrListFailed (some detailsHealthyFailed) = "failed" ∧
    toCiStatus (getNormalizedCiStatus mrListFailed (some detailsHealthyFailed))
      (some detailsHealthyFailed) = CiStatus.unknown := by
  refine ⟨by decide, ?_⟩
  exact (((ciFailedFalsePositiveSuppression mrListFailed (some detailsHealthyFailed)).1
      (by decide)).1).mpr
    ⟨detailsHealthyFailed, "can_be_merged", rfl, rfl, Or.inl (by decide)⟩

/-- C2: raw-status resolution order — details' head-pipeline status when it
normalizes non-empty, else details' pipeline status, else `""` (canonically
`unknown`) whenever a details payload exists; the list-level pipeline status
is consulted only when no details payload was obtained, and the result with a
details payload never depends on the original record. -/
theorem rawCiStatusResolutionOrder (mr mrOther : MergeRequest) (d : MergeRequestDetails) :
    (normalizeStatusValue ((some d).bind MergeRequestDetails.head_pipeline |>.bind PipelineRef.status) ≠ "" →
      getNormalizedCiStatus mr (some d) =
        normalizeStatusValue ((some d).bind MergeRequestDetails.head_pipeline |>.bind PipelineRef.status)) ∧
    (normalizeStatusValue ((some d).bind MergeRequestDetails.head_pipeline |>.bind PipelineRef.status) = "" →
      normalizeStatusValue ((some d).bind MergeRequestDetails.pipeline |>.bind PipelineRef.status) ≠ "" →
      getNormalizedCiStatus mr (some d) =
        normalizeStatusValue ((some d).bind MergeRequestDetails.pipeline |>.bind PipelineRef.status)) ∧
    (getNormalizedCiStatus mr none = normalizeStatusValue (mr.pipeline.map ListPipeline.status)) ∧
    (normalizeStatusValue ((some d).bind MergeRequestDetails.head_pipeline |>.bind PipelineRef.status) = "" →
      normalizeStatusValue ((some d).bind MergeRequestDetails.pipeline |>.bind PipelineRef.status) = "" →
      getNormalizedCiStatus mr (some d) = "" ∧
        toCiStatus (getNormalizedCiStatus mr (some d)) (some d) = CiStatus.unknown) ∧
    (getNormalizedCiStatus mr (some d) = getNormalizedCiStatus mrOther (some d)) := by
  refine ⟨?_, ?_, ?_, ?_, ?_⟩
  · intro h1
    rw [getNormalizedCiStatus, if_pos h1]
  · intro h1 h2
    rw [getNormalizedCiStatus, if_neg (by simpa using h1), if_pos h2]
  · rfl
  · intro h1 h2
    have h0 : getNormalizedCiStatus mr (some d) = "" := by
      rw [getNormalizedCiStatus, if_neg (by simpa using h1), if_neg (by simpa using h2)]
    exact ⟨h0, by rw [h0]; simp [toCiStatus]⟩
  · rw [getNormalizedCiStatus, getNormalizedCiStatus]

/-- Witness for C2: with a stale `failed` list-level status but a details
payload carrying no usable status, the canonical status is `unknown` and the
stale field is ignored. -/
theorem rawCiStatusResolutionOrder_witness :
    getNormalizedCiStatus mrListFailed (some ({} : MergeRequestDetails)) = "" ∧
    toCiStatus (getNormalizedCiStatus mrListFailed (some ({} : MergeRequestDetails)))
      (some ({} : MergeRequestDetails)) = CiStatus.unknown ∧
    getNormalizedCiStatus mrListFailed none = "failed" := by
  have h := (rawCiStatusResolutionOrder mrListFailed mrListFailed {}).2.2.2.1 (by decide) (by decide)
  exact ⟨h.1, h.2, by decide⟩

/-- Counterexample to C4 as stated: with a details payload present that
reports no conflict and a mergeable merge status, flipping only the original
record's list-level conflict flag flips the result — the list-level fields do
affect the outcome even when a details payload is present. -/
theorem conflictFlag_listLevel_counterexample :
    hasMergeConflict { has_conflicts := true }
        (some { has_conflicts := some false, merge_status := some "can_be_merged" }) = true ∧
      hasMergeConflict { has_conflicts := false }
        (some { has_conflicts := some false, merge_status := some "can_be_merged" }) = false := by
  decide

/-- C4 (amended): the health record's `hasConflicts` flag is true exactly when
the details payload reports `has_conflicts`, or the details payload's merge
status is `cannot_be_merged`, or the original record's own conflict flag or
merge status says so — the list-level fields are consulted unconditionally,
not only in the absence of a details payload. -/
theorem conflictFlagCharacterization (mr : MergeRequest)
    (details : Option MergeRequestDetails) :
    (hasMergeConflict mr details = true ↔
      (∃ d, details = some d ∧ d.has_conflicts = some true) ∨
        (∃ d, details = some d ∧ d.merge_status = some "cannot_be_merged") ∨
        mr.has_conflicts = true ∨ mr.merge_status = "cannot_be_merged") ∧
    (∀ env currentUserId options s,
      ((buildOneHealthSignal env currentUserId options mr s).1).hasConflicts =
        hasMergeConflict mr (getMergeRequestDetails env mr s).1) := by
  constructor
  · rw [hasMergeConflict]
    cases details with
    | none => simp
    | some d => simp [or_assoc]
  · intro env currentUserId options s
    rw [buildOneHealthSignal]

/-- Witness for C4 (amended): a record whose own list-level flag is set is
conflicted even under a clean details payload. -/
theorem conflictFlagCharacterization_witness :
    hasMergeConflict { has_conflicts := true }
      (some { has_conflicts := some false, merge_status := some "can_be_merged" }) = true := by
  exact (conflictFlagCharacterization { has_conflicts := true }
      (some { has_conflicts := some false, merge_status := some "can_be_merged" })).1.mpr
    (Or.inr (Or.inr (Or.inl rfl)))

/-- One differ step appends the item to each output list exactly when the
corresponding push condition holds. -/
theorem detectStep_eq (prev : Int → Option AssignedAlertSnapshot)
    (acc : AssignedAlertDiff) (item : MergeRequestHealth) :
    detectStep prev acc item =
      { newlyConflicted :=
          acc.newlyConflicted ++ if newlyConflictedFlag prev item then [item] else []
        newlyFailedCi :=
          acc.newlyFailedCi ++ if newlyFailedCiFlag prev item then [item] else [] } := by
  rw [detectStep]
  by_cases h1 : newlyConflictedFlag prev item
  · by_cases h2 : newlyFailedCiFlag prev item
    · simp [h1, h2]
    · simp [h1, h2]
  · by_cases h2 : newlyFailedCiFlag prev item
    · simp [h1, h2]
    · simp [h1, h2]

/-- Unrolling the differ's fold: the output lists are the filters of the
current items by the two push conditions, appended to the accumulator. -/
theorem detectDiff_foldl (prev : Int → Option AssignedAlertSnapshot) :
    ∀ (items : List MergeRequestHealth) (acc : AssignedAlertDiff),
      items.foldl (detectStep prev) acc =
        { newlyConflicted := acc.newlyConflicted ++ items.filter (newlyConflictedFlag prev)
          newlyFailedCi := acc.newlyFailedCi ++ items.filter (newlyFailedCiFlag prev) }
  | [], acc => by simp
  | item :: rest, acc => by
    rw [List.foldl_cons, detectDiff_foldl prev rest, detectStep_eq]
    by_cases h1 : newlyConflictedFlag prev item
    · by_cases h2 : newlyFailedCiFlag prev item
      · simp [List.filter_cons, h1, h2]
      · simp [List.filter_cons, h1, h2]
    · by_cases h2 : newlyFailedCiFlag prev item
      · simp [List.filter_cons, h1, h2]
      · simp [List.filter_cons, h1, h2]

/-- C5: the differ returns exactly the current records that are risky now but
were not recorded risky in the previous snapshot, per signal; a record risky
in the previous snapshot never re-alerts for that signal, and a record absent
from the previous snapshot and risky now always alerts. -/
theorem assignedAlertDiffCharacterization
    (prev : Int → Option AssignedAlertSnapshot) (items : List MergeRequestHealth) :
    (detectAssignedAlertDiff prev items).newlyConflicted =
        items.filter (newlyConflictedFlag prev) ∧
    (detectAssignedAlertDiff prev items).newlyFailedCi =
        items.filter (newlyFailedCiFlag prev) ∧
    (∀ item, item ∈ items → item.hasConflicts = true →
      prev item.mergeRequest.id = none →
      item ∈ (detectAssignedAlertDiff prev items).newlyConflicted) ∧
    (∀ item p, item ∈ items → prev item.mergeRequest.id = some p →
      p.hasConflicts = true →
      item ∉ (detectAssignedAlertDiff prev items).newlyConflicted) ∧
    (∀ item, item ∈ items → item.hasFailedCi = true →
      prev item.mergeRequest.id = none →
      item ∈ (detectAssignedAlertDiff prev items).newlyFailedCi) ∧
    (∀ item p, item ∈ items → prev item.mergeRequest.id = some p →
      p.hasFailedCi = true →
      item ∉ (detectAssignedAlertDiff prev items).newlyFailedCi) := by
  have hfold := detectDiff_foldl prev items {}
  rw [detectAssignedAlertDiff, hfold]
  refine ⟨by simp, by simp, ?_, ?_, ?_, ?_⟩
  · intro item hmem hconf hprev
    simp only [List.nil_append, List.mem_filter]
    exact ⟨by simpa using hmem, by simp [newlyConflictedFlag, hconf, hprev]⟩
  · intro item p hmem hprev hconf
    simp only [List.nil_append, List.mem_filter]
    rintro ⟨-, hflag⟩
    rw [newlyConflictedFlag, hprev] at hflag
    simp [hconf] at hflag
  · intro item hmem hci hprev
    simp only [List.nil_append, List.mem_filter]
    exact ⟨by simpa using hmem, by simp [newlyFailedCiFlag, hci, hprev]⟩
  · intro item p hmem hprev hci
    simp only [List.nil_append, List.mem_filter]
    rintro ⟨-, hflag⟩
    rw [newlyFailedCiFlag, hprev] at hflag
    simp [hci] at hflag

/-- Witness for C5: a first-sight conflict alerts, a persisting conflict does
not. -/
theorem assignedAlertDiffCharacterization_witness :
    ({ mergeRequest := { id := 1 }, hasConflicts := true } : MergeRequestHealth) ∈
      (detectAssignedAlertDiff (fun _ => none)
        [{ mergeRequest := { id := 1 }, hasConflicts := true }]).newlyConflicted ∧
    ({ mergeRequest := { id := 1 }, hasConflicts := true } : MergeRequestHealth) ∉
      (detectAssignedAlertDiff (fun _ => some { hasConflicts := true })
        [{ mergeRequest := { id := 1 }, hasConflicts := true }]).newlyConflicted := by
  constructor
  · exact (assignedAlertDiffCharacterization (fun _ => none)
      [{ mergeRequest := { id := 1 }, hasConflicts := true }]).2.2.1
      { mergeRequest := { id := 1 }, hasConflicts := true } (by decide) rfl rfl
  · exact (assignedAlertDiffCharacterization (fun _ => some { hasConflicts := true })
      [{ mergeRequest := { id := 1 }, hasConflicts := true }]).2.2.2.1
      { mergeRequest := { id := 1 }, hasConflicts := true } { hasConflicts := true }
      (by decide) rfl rfl

/-- Values of the snapshot map at ids not occurring in the folded items are
the base map's. -/
theorem snapshot_foldl_not_mem (key : Int) :
    ∀ (items : List MergeRequestHealth) (base : Int → Option AssignedAlertSnapshot),
      key ∉ items.map (fun i => i.mergeRequest.id) →
      items.foldl snapshotStep base key = base key
  | [], base, _ => rfl
  | item :: rest, base, h => by
    rw [List.foldl_cons, snapshot_foldl_not_mem key rest]
    · rw [snapshotStep, if_neg (by simp at h; exact h.1)]
    · simp at h
      simpa using h.2

/-- With pairwise distinct ids, the snapshot lookup of a listed item yields
that item's two risk flags. -/
theorem snapshot_lookup (items : List MergeRequestHealth)
    (hnd : (items.map (fun i => i.mergeRequest.id)).Nodup)
    (item : MergeRequestHealth) (hmem : item ∈ items) :
    buildAssignedAlertSnapshot items item.mergeRequest.id =
      some { hasConflicts := item.hasConflicts, hasFailedCi := item.hasFailedCi } := by
  obtain ⟨s, t, rfl⟩ := List.append_of_mem hmem
  rw [buildAssignedAlertSnapshot, List.foldl_append, List.foldl_cons]
  have hnotmem : item.mergeRequest.id ∉ t.map (fun i => i.mergeRequest.id) := by
    rw [List.map_append, List.map_cons] at hnd
    exact (List.nodup_cons.mp (List.nodup_append.mp hnd).2.1).1
  rw [snapshot_foldl_not_mem _ t _ hnotmem, snapshotStep, if_pos rfl]

/-- C10: building a snapshot from a batch of records with pairwise distinct
ids and immediately diffing the same batch against it raises no alerts. -/
theorem snapshotRoundTripNoAlerts (items : List MergeRequestHealth)
    (hnd : (items.map (fun i => i.mergeRequest.id)).Nodup) :
    detectAssignedAlertDiff (buildAssignedAlertSnapshot items) items =
      { newlyConflicted := [], newlyFailedCi := [] } := by
  have h1 : items.filter (newlyConflictedFlag (buildAssignedAlertSnapshot items)) = [] := by
    rw [List.filter_eq_nil_iff]
    intro item hmem
    simp [newlyConflictedFlag, snapshot_lookup items hnd item hmem]
  have h2 : items.filter (newlyFailedCiFlag (buildAssignedAlertSnapshot items)) = [] := by
    rw [List.filter_eq_nil_iff]
    intro item hmem
    simp [newlyFailedCiFlag, snapshot_lookup items hnd item hmem]
  rw [detectAssignedAlertDiff, detectDiff_foldl, h1, h2]
  simp

/-- Witness for C10 at a two-record batch carrying both risk signals. -/
theorem snapshotRoundTripNoAlerts_witness :
    detectAssignedAlertDiff
        (buildAssignedAlertSnapshot
          [{ mergeRequest := { id := 1 }, hasConflicts := true },
           { mergeRequest := { id := 2 }, hasFailedCi := true }])
        [{ mergeRequest := { id := 1 }, hasConflicts := true },
         { mergeRequest := { id := 2 }, hasFailedCi := true }] =
      { newlyConflicted := [], newlyFailedCi := [] } := by
  exact snapshotRoundTripNoAlerts
    [{ mergeRequest := { id := 1 }, hasConflicts := true },
     { mergeRequest := { id := 2 }, hasFailedCi := true }] (by decide)

/-- A suppressor step leaves every key other than the item's own id unchanged. -/
theorem applyIgnoredStep_other (previousState : Int → Option IgnoredAssignedAlertState)
    (acc : ApplyIgnoredResult) (item : MergeRequestHealth) (key : Int)
    (hne : item.mergeRequest.id ≠ key) :
    (applyIgnoredStep previousState acc item).ignoredMergeRequestIds key =
        acc.ignoredMergeRequestIds key ∧
    (applyIgnoredStep previousState acc item).activeIgnoredSignals key =
        acc.activeIgnoredSignals key ∧
    (applyIgnoredStep previousState acc item).nextState key = acc.nextState key := by
  have hne' : ¬(key = item.mergeRequest.id) := fun h => hne h.symm
  refine ⟨?_, ?_, ?_⟩ <;>
  · cases hp : previousState item.mergeRequest.id with
    | none => simp only [applyIgnoredStep, hp]
    | some previous =>
      simp only [applyIgnoredStep, hp]
      by_cases hsig : previous.commitSignature ≠ toCommitSignature item.latestCommitAt
      · rw [if_pos hsig]
      · rw [if_neg hsig]
        by_cases hsignal : (!(previous.ignoreConflicts && item.hasConflicts) &&
            !(previous.ignoreFailedCi && item.hasFailedCi)) = true
        · rw [if_pos hsignal]
        · rw [if_neg hsignal]
          simp [hne']

/-- A suppressor step writes the same value at the item's own id from any two
accumulators agreeing there. -/
theorem applyIgnoredStep_congr (previousState : Int → Option IgnoredAssignedAlertState)
    (acc acc' : ApplyIgnoredResult) (item : MergeRequestHealth)
    (h1 : acc.ignoredMergeRequestIds item.mergeRequest.id =
      acc'.ignoredMergeRequestIds item.mergeRequest.id)
    (h2 : acc.activeIgnoredSignals item.mergeRequest.id =
      acc'.activeIgnoredSignals item.mergeRequest.id)
    (h3 : acc.nextState item.mergeRequest.id = acc'.nextState item.mergeRequest.id) :
    (applyIgnoredStep previousState acc item).ignoredMergeRequestIds item.mergeRequest.id =
        (applyIgnoredStep previousState acc' item).ignoredMergeRequestIds item.mergeRequest.id ∧
    (applyIgnoredStep previousState acc item).activeIgnoredSignals item.mergeRequest.id =
        (applyIgnoredStep previousState acc' item).activeIgnoredSignals item.mergeRequest.id ∧
    (applyIgnoredStep previousState acc item).nextState item.mergeRequest.id =
        (applyIgnoredStep previousState acc' item).nextState item.mergeRequest.id := by
  cases hp : previousState item.mergeRequest.id with
  | none =>
    simp only [applyIgnoredStep, hp]
    exact ⟨h1, h2, h3⟩
  | some previous =>
    simp only [applyIgnoredStep, hp]
    by_cases hsig : previous.commitSignature ≠ toCommitSignature item.latestCommitAt
    · rw [if_pos hsig, if_pos hsig]
      exact ⟨h1, h2, h3⟩
    · rw [if_neg hsig, if_neg hsig]
      by_cases hsignal : (!(previous.ignoreConflicts && item.hasConflicts) &&
          !(previous.ignoreFailedCi && item.hasFailedCi)) = true
      · rw [if_pos hsignal, if_pos hsignal]
        exact ⟨h1, h2, h3⟩
      · rw [if_neg hsignal, if_neg hsignal]
        simp

/-- Folding the suppressor over items not carrying a key leaves that key
unchanged. -/
theorem applyIgnored_foldl_not_mem (previousState : Int → Option IgnoredAssignedAlertState)
    (key : Int) :
    ∀ (items : List MergeRequestHealth) (acc : ApplyIgnoredResult),
      key ∉ items.map (fun i => i.mergeRequest.id) →
      (items.foldl (applyIgnoredStep previousState) acc).ignoredMergeRequestIds key =
          acc.ignoredMergeRequestIds key ∧
      (items.foldl (applyIgnoredStep previousState) acc).activeIgnoredSignals key =
          acc.activeIgnoredSignals key ∧
      (items.foldl (applyIgnoredStep previousState) acc).nextState key = acc.nextState key
  | [], acc, _ => ⟨rfl, rfl, rfl⟩
  | item :: rest, acc, h => by
    rw [List.foldl_cons]
    have hsplit : ¬(key = item.mergeRequest.id) ∧ key ∉ rest.map (fun i => i.mergeRequest.id) := by
      simpa using h
    have hstep := applyIgnoredStep_other previousState acc item key (fun e => hsplit.1 e.symm)
    have hrest := applyIgnored_foldl_not_mem previousState key rest
      (applyIgnoredStep previousState acc item) hsplit.2
    exact ⟨hrest.1.trans hstep.1, hrest.2.1.trans hstep.2.1, hrest.2.2.trans hstep.2.2⟩

/-- With pairwise distinct ids, the suppressor's outputs at a listed item's id
are those of the single step on that item from the empty accumulator. -/
theorem applyIgnored_at_self (previousState : Int → Option IgnoredAssignedAlertState)
    (s t : List MergeRequestHealth) (item : MergeRequestHealth)
    (hs : item.mergeRequest.id ∉ s.map (fun i => i.mergeRequest.id))
    (ht : item.mergeRequest.id ∉ t.map (fun i => i.mergeRequest.id)) :
    (applyIgnoredAssignedAlertsUntilNewCommit (s ++ item :: t) previousState).ignoredMergeRequestIds
        item.mergeRequest.id =
      (applyIgnoredStep previousState emptyApplyResult item).ignoredMergeRequestIds
        item.mergeRequest.id ∧
    (applyIgnoredAssignedAlertsUntilNewCommit (s ++ item :: t) previousState).activeIgnoredSignals
        item.mergeRequest.id =
      (applyIgnoredStep previousState emptyApplyResult item).activeIgnoredSignals
        item.mergeRequest.id ∧
    (applyIgnoredAssignedAlertsUntilNewCommit (s ++ item :: t) previousState).nextState
        item.mergeRequest.id =
      (applyIgnoredStep previousState emptyApplyResult item).nextState item.mergeRequest.id := by
  rw [applyIgnoredAssignedAlertsUntilNewCommit, List.foldl_append, List.foldl_cons]
  have hbase := applyIgnored_foldl_not_mem previousState item.mergeRequest.id s emptyApplyResult hs
  have hcongr := applyIgnoredStep_congr previousState
    (s.foldl (applyIgnoredStep previousState) emptyApplyResult) emptyApplyResult item
    hbase.1 hbase.2.1 hbase.2.2
  have htail := applyIgnored_foldl_not_mem previousState item.mergeRequest.id t
    (applyIgnoredStep previousState (s.foldl (applyIgnoredStep previousState) emptyApplyResult) item) ht
  exact ⟨htail.1.trans hcongr.1, htail.2.1.trans hcongr.2.1, htail.2.2.trans hcongr.2.2⟩

/-- C6: with pairwise distinct ids, the suppressor keeps a prior ignore entry
(carrying it unchanged into `nextState`, marking the id ignored, and recording
exactly the signals that are both ignored and currently true) exactly when the
record's current commit signature matches the stored one and at least one
ignored signal is still true; otherwise — and for ids without a record or
without a prior entry — the entry is dropped and nothing is marked. -/
theorem ignoreUntilNewCommitCharacterization
    (previousState : Int → Option IgnoredAssignedAlertState)
    (items : List MergeRequestHealth)
    (hnd : (items.map (fun i => i.mergeRequest.id)).Nodup) :
    (∀ item previous, item ∈ items →
      previousState item.mergeRequest.id = some previous →
      ((keepsIgnoredEntry previous item →
        (applyIgnoredAssignedAlertsUntilNewCommit items previousState).nextState
            item.mergeRequest.id = some previous ∧
        (applyIgnoredAssignedAlertsUntilNewCommit items previousState).ignoredMergeRequestIds
            item.mergeRequest.id = true ∧
        (applyIgnoredAssignedAlertsUntilNewCommit items previousState).activeIgnoredSignals
            item.mergeRequest.id =
          some { ignoreConflicts := previous.ignoreConflicts && item.hasConflicts
                 ignoreFailedCi := previous.ignoreFailedCi && item.hasFailedCi }) ∧
      (¬ keepsIgnoredEntry previous item →
        (applyIgnoredAssignedAlertsUntilNewCommit items previousState).nextState
            item.mergeRequest.id = none ∧
        (applyIgnoredAssignedAlertsUntilNewCommit items previousState).ignoredMergeRequestIds
            item.mergeRequest.id = false ∧
        (applyIgnoredAssignedAlertsUntilNewCommit items previousState).activeIgnoredSignals
            item.mergeRequest.id = none))) ∧
    (∀ item, item ∈ items → previousState item.mergeRequest.id = none →
      (applyIgnoredAssignedAlertsUntilNewCommit items previousState).nextState
          item.mergeRequest.id = none ∧
      (applyIgnoredAssignedAlertsUntilNewCommit items previousState).ignoredMergeRequestIds
          item.mergeRequest.id = false ∧
      (applyIgnoredAssignedAlertsUntilNewCommit items previousState).activeIgnoredSignals
          item.mergeRequest.id = none) ∧
    (∀ key, key ∉ items.map (fun i => i.mergeRequest.id) →
      (applyIgnoredAssignedAlertsUntilNewCommit items previousState).nextState key = none ∧
      (applyIgnoredAssignedAlertsUntilNewCommit items previousState).ignoredMergeRequestIds
          key = false ∧
      (applyIgnoredAssignedAlertsUntilNewCommit items previousState).activeIgnoredSignals
          key = none) := by
  refine ⟨?_, ?_, ?_⟩
  · intro item previous hmem hp
    obtain ⟨s, t, rfl⟩ := List.append_of_mem hmem
    rw [List.map_append, List.map_cons] at hnd
    have hd := List.nodup_append.mp hnd
    have ht : item.mergeRequest.id ∉ t.map (fun i => i.mergeRequest.id) :=
      (List.nodup_cons.mp hd.2.1).1
    have hs : item.mergeRequest.id ∉ s.map (fun i => i.mergeRequest.id) :=
      fun hin => hd.2.2 hin (List.mem_cons_self _ _)
    have hself := applyIgnored_at_self previousState s t item hs ht
    constructor
    · intro hkeep
      have hsig : ¬(previous.commitSignature ≠ toCommitSignature item.latestCommitAt) :=
        not_not_intro hkeep.1.symm
      have hsignal : ¬((!(previous.ignoreConflicts && item.hasConflicts) &&
          !(previous.ignoreFailedCi && item.hasFailedCi)) = true) := by
        rcases hkeep.2 with ⟨ha, hb⟩ | ⟨ha, hb⟩ <;> simp [ha, hb]
      have hstep1 : (applyIgnoredStep previousState emptyApplyResult item).nextState
          item.mergeRequest.id = some previous := by
        simp only [applyIgnoredStep, hp]
        rw [if_neg hsig, if_neg hsignal]
        simp
      have hstep2 : (applyIgnoredStep previousState emptyApplyResult item).ignoredMergeRequestIds
          item.mergeRequest.id = true := by
        simp only [applyIgnoredStep, hp]
        rw [if_neg hsig, if_neg hsignal]
        simp
      have hstep3 : (applyIgnoredStep previousState emptyApplyResult item).activeIgnoredSignals
          item.mergeRequest.id =
          some { ignoreConflicts := previous.ignoreConflicts && item.hasConflicts
                 ignoreFailedCi := previous.ignoreFailedCi && item.hasFailedCi } := by
        simp only [applyIgnoredStep, hp]
        rw [if_neg hsig, if_neg hsignal]
        simp
      exact ⟨hself.2.2.trans hstep1, hself.1.trans hstep2, hself.2.1.trans hstep3⟩
    · intro hdrop
      have hstep : (applyIgnoredStep previousState emptyApplyResult item).nextState
            item.mergeRequest.id = none ∧
          (applyIgnoredStep previousState emptyApplyResult item).ignoredMergeRequestIds
            item.mergeRequest.id = false ∧
          (applyIgnoredStep previousState emptyApplyResult item).activeIgnoredSignals
            item.mergeRequest.id = none := by
        by_cases hsig : previous.commitSignature ≠ toCommitSignature item.latestCommitAt
        · simp only [applyIgnoredStep, hp]
          rw [if_pos hsig]
          exact ⟨rfl, rfl, rfl⟩
        · have hkeep1 : toCommitSignature item.latestCommitAt = previous.commitSignature :=
            (not_not.mp hsig).symm
          have hnor : ¬((previous.ignoreConflicts = true ∧ item.hasConflicts = true) ∨
              (previous.ignoreFailedCi = true ∧ item.hasFailedCi = true)) :=
            fun hor => hdrop ⟨hkeep1, hor⟩
          have hc1 : (previous.ignoreConflicts && item.hasConflicts) = false := by
            cases hb : previous.ignoreConflicts && item.hasConflicts
            · rfl
            · exact absurd (Or.inl (Bool.and_eq_true_iff.mp hb)) hnor
          have hc2 : (previous.ignoreFailedCi && item.hasFailedCi) = false := by
            cases hb : previous.ignoreFailedCi && item.hasFailedCi
            · rfl
            · exact absurd (Or.inr (Bool.and_eq_true_iff.mp hb)) hnor
          simp only [applyIgnoredStep, hp]
          rw [if_neg hsig, if_pos (by rw [hc1, hc2]; rfl)]
          exact ⟨rfl, rfl, rfl⟩
      exact ⟨hself.2.2.trans hstep.1, hself.1.trans hstep.2.1, hself.2.1.trans hstep.2.2⟩
  · intro item hmem hp
    obtain ⟨s, t, rfl⟩ := List.append_of_mem hmem
    rw [List.map_append, List.map_cons] at hnd
    have hd := List.nodup_append.mp hnd
    have ht : item.mergeRequest.id ∉ t.map (fun i => i.mergeRequest.id) :=
      (List.nodup_cons.mp hd.2.1).1
    have hs : item.mergeRequest.id ∉ s.map (fun i => i.mergeRequest.id) :=
      fun hin => hd.2.2 hin (List.mem_cons_self _ _)
    have hself := applyIgnored_at_self previousState s t item hs ht
    have hstep : applyIgnoredStep previousState emptyApplyResult item = emptyApplyResult := by
      simp only [applyIgnoredStep, hp]
    rw [hstep] at hself
    exact ⟨hself.2.2, hself.1, hself.2.1⟩
  · intro key hkey
    have h := applyIgnored_foldl_not_mem previousState key items emptyApplyResult hkey
    exact ⟨h.2.2, h.1, h.2.1⟩

/-- Witness for C6: an entry whose commit signature still matches and whose
ignored conflict signal is still true is carried forward; an entry whose
signature moved on is dropped. -/
theorem ignoreUntilNewCommitCharacterization_witness :
    (applyIgnoredAssignedAlertsUntilNewCommit
        [{ mergeRequest := { id := 1 }, hasConflicts := true, latestCommitAt := some "sig" }]
        (fun key =>
          if key = 1 then
            some { commitSignature := "sig", ignoreConflicts := true, ignoreFailedCi := false }
          else none)).nextState 1 =
      some { commitSignature := "sig", ignoreConflicts := true, ignoreFailedCi := false } ∧
    (applyIgnoredAssignedAlertsUntilNewCommit
        [{ mergeRequest := { id := 1 }, hasConflicts := true, latestCommitAt := some "sig2" }]
        (fun key =>
          if key = 1 then
            some { commitSignature := "sig", ignoreConflicts := true, ignoreFailedCi := false }
          else none)).nextState 1 = none := by
  constructor
  · exact ((ignoreUntilNewCommitCharacterization
        (fun key =>
          if key = 1 then
            some { commitSignature := "sig", ignoreConflicts := true, ignoreFailedCi := false }
          else none)
        [{ mergeRequest := { id := 1 }, hasConflicts := true, latestCommitAt := some "sig" }]
        (by decide)).1
      { mergeRequest := { id := 1 }, hasConflicts := true, latestCommitAt := some "sig" }
      { commitSignature := "sig", ignoreConflicts := true, ignoreFailedCi := false }
      (by decide) (by decide)).1 (by decide) |>.1
  · exact ((ignoreUntilNewCommitCharacterization
        (fun key =>
          if key = 1 then
            some { commitSignature := "sig", ignoreConflicts := true, ignoreFailedCi := false }
          else none)
        [{ mergeRequest := { id := 1 }, hasConflicts := true, latestCommitAt := some "sig2" }]
        (by decide)).1
      { mergeRequest := { id := 1 }, hasConflicts := true, latestCommitAt := some "sig2" }
      { commitSignature := "sig", ignoreConflicts := true, ignoreFailedCi := false }
      (by decide) (by decide)).2 (by decide) |>.1

/-- The scanner's reviewer slot ends truthy exactly when it started truthy or
some note qualifies as a reviewer note. -/
theorem scanNotes_rev_truthy (uid : Int) (aid : Option Int) :
    ∀ (notes : List MergeRequestNote) (rev auth : Option String),
      strTruthy (scanNotes uid aid notes rev auth).1 =
        (strTruthy rev || notes.any (isReviewerNote uid))
  | [], rev, auth => by simp [scanNotes]
  | note :: rest, rev, auth => by
    rw [List.any_cons]
    by_cases hsys : note.system.getD false = true
    · rw [scanNotes, if_pos hsys, scanNotes_rev_truthy uid aid rest rev auth]
      have hnote : isReviewerNote uid note = false := by simp [isReviewerNote, hsys]
      rw [hnote, Bool.false_or]
    · have hsys' : note.system.getD false = false := by
        cases h : note.system.getD false
        · rfl
        · exact absurd h hsys
      rw [scanNotes, if_neg hsys]
      by_cases htakes : (note.author.map UserRef.id == some uid && !(strTruthy rev)) = true
      · have huid : (note.author.map UserRef.id == some uid) = true :=
          (Bool.and_eq_true_iff.mp htakes).1
        have hrevfalse : strTruthy rev = false := by
          have h2 := (Bool.and_eq_true_iff.mp htakes).2
          cases h : strTruthy rev
          · rfl
          · rw [h] at h2
            exact absurd h2 (by decide)
        have hnote : isReviewerNote uid note = strTruthy (some note.created_at) := by
          simp [isReviewerNote, hsys', huid, strTruthy]
        have hrsn : reviewerSlotNext uid note rev = some note.created_at := by
          rw [reviewerSlotNext, if_pos htakes]
        rw [hrsn]
        split
        · next hbreak =>
          have h1 : strTruthy (some note.created_at) = true :=
            (Bool.and_eq_true_iff.mp hbreak).1
          simp [h1, hnote, hrevfalse]
        · next hbreak =>
          rw [scanNotes_rev_truthy uid aid rest (some note.created_at) _]
          simp [hnote, hrevfalse]
      · have hrsn : reviewerSlotNext uid note rev = rev := by
          rw [reviewerSlotNext, if_neg htakes]
        rw [hrsn]
        split
        · next hbreak =>
          have h1 : strTruthy rev = true := (Bool.and_eq_true_iff.mp hbreak).1
          simp [h1]
        · next hbreak =>
          rw [scanNotes_rev_truthy uid aid rest rev _]
          by_cases hrev : strTruthy rev = true
          · simp [hrev]
          · have hrevfalse : strTruthy rev = false := by
              cases h : strTruthy rev
              · rfl
              · exact absurd h hrev
            have huid : (note.author.map UserRef.id == some uid) = false := by
              cases h : note.author.map UserRef.id == some uid
              · rfl
              · exfalso
                apply htakes
                rw [h, hrevfalse]
                rfl
            have hnote : isReviewerNote uid note = false := by
              simp [isReviewerNote, huid]
            simp [hrevfalse, hnote]

/-- `isLaterThan` decides the semantic strictly-later relation. -/
theorem isLaterThan_iff (parse : String → Option Int) (x y : Option String) :
    isLaterThan parse x y = true ↔ StrictlyLaterThan parse x y := by
  cases x with
  | none => simp [isLaterThan, StrictlyLaterThan]
  | some l =>
    cases y with
    | none => simp [isLaterThan, StrictlyLaterThan]
    | some r =>
      by_cases hl : l = ""
      · simp [isLaterThan, StrictlyLaterThan, hl]
      · by_cases hr : r = ""
        · simp [isLaterThan, StrictlyLaterThan, hl, hr]
        · cases hpl : parse l with
          | none =>
            constructor
            · intro h
              rw [isLaterThan, if_neg (by simp [hl, hr]), hpl] at h
              cases hpr : parse r with
              | none =>
                rw [hpr] at h
                simp at h
              | some rm =>
                rw [hpr] at h
                simp at h
            · rintro ⟨sx, sy, mx, my, hx, hy, -, -, hpx, -, -⟩
              cases hx
              rw [hpl] at hpx
              exact absurd hpx (by simp)
          | some lm =>
            cases hpr : parse r with
            | none =>
              constructor
              · intro h
                rw [isLaterThan, if_neg (by simp [hl, hr]), hpl, hpr] at h
                simp at h
              · rintro ⟨sx, sy, mx, my, hx, hy, -, -, -, hpy, -⟩
                cases hy
                rw [hpr] at hpy
                exact absurd hpy (by simp)
            | some rm =>
              constructor
              · intro h
                rw [isLaterThan, if_neg (by simp [hl, hr]), hpl, hpr] at h
                exact ⟨l, r, lm, rm, rfl, rfl, hl, hr, hpl, hpr, by simpa using h⟩
              · rintro ⟨sx, sy, mx, my, hx, hy, -, -, hpx, hpy, hlt⟩
                cases hx
                cases hy
                rw [hpl] at hpx
                rw [hpr] at hpy
                cases hpx
                cases hpy
                rw [isLaterThan, if_neg (by simp [hl, hr]), hpl, hpr]
                simpa using hlt

/-- Counterexample to C3 as stated: a non-system note by the current user whose
`created_at` is the empty string still leaves the derived status `new`,
because JS string truthiness treats the captured empty timestamp as unset. -/
theorem reviewStatusNew_counterexample :
    resolveReviewStatus parseTable
        (scanNotes 7 (some 9) [emptyTimestampNote] none none).1
        (some "c2")
        (scanNotes 7 (some 9) [emptyTimestampNote] none none).2 =
      ReviewerReviewStatus.new ∧
    (∃ note, note ∈ [emptyTimestampNote] ∧
      note.system.getD false = false ∧ note.author.map UserRef.id = some (7 : Int)) := by
  refine ⟨by decide, ⟨emptyTimestampNote, List.mem_singleton.mpr rfl, by decide, by decide⟩⟩

/-- C3 (amended): the derived review status is `new` exactly when no reviewer
note — non-system, authored by the current user, with a *non-empty* timestamp —
exists; otherwise it is `needs_review` exactly when the latest commit is
strictly later than the captured reviewer timestamp or the captured author
timestamp is strictly later than it (comparisons with a missing, empty or
unparseable side count as not-later), and `waiting_for_author` otherwise. -/
theorem reviewStatusClassification (parse : String → Option Int) (uid : Int)
    (aid : Option Int) (notes : List MergeRequestNote) (latestCommitAt : Option String) :
    (resolveReviewStatus parse (scanNotes uid aid notes none none).1 latestCommitAt
        (scanNotes uid aid notes none none).2 = ReviewerReviewStatus.new ↔
      ¬ ∃ note, note ∈ notes ∧ isReviewerNote uid note = true) ∧
    (resolveReviewStatus parse (scanNotes uid aid notes none none).1 latestCommitAt
        (scanNotes uid aid notes none none).2 ≠ ReviewerReviewStatus.new →
      (resolveReviewStatus parse (scanNotes uid aid notes none none).1 latestCommitAt
          (scanNotes uid aid notes none none).2 = ReviewerReviewStatus.needs_review ↔
        (StrictlyLaterThan parse latestCommitAt (scanNotes uid aid notes none none).1 ∨
          StrictlyLaterThan parse (scanNotes uid aid notes none none).2
            (scanNotes uid aid notes none none).1))) ∧
    (resolveReviewStatus parse (scanNotes uid aid notes none none).1 latestCommitAt
        (scanNotes uid aid notes none none).2 = ReviewerReviewStatus.new ∨
      resolveReviewStatus parse (scanNotes uid aid notes none none).1 latestCommitAt
        (scanNotes uid aid notes none none).2 = ReviewerReviewStatus.needs_review ∨
      resolveReviewStatus parse (scanNotes uid aid notes none none).1 latestCommitAt
        (scanNotes uid aid notes none none).2 = ReviewerReviewStatus.waiting_for_author) := by
  have hscan : strTruthy (scanNotes uid aid notes none none).1 =
      notes.any (isReviewerNote uid) := by
    rw [scanNotes_rev_truthy uid aid notes none none]
    rfl
  refine ⟨?_, ?_, ?_⟩
  · rw [resolveReviewStatus]
    by_cases htr : strTruthy (scanNotes uid aid notes none none).1 = true
    · rw [if_neg (by simp [htr])]
      rw [hscan, List.any_eq_true] at htr
      constructor
      · intro h
        by_cases hlater : (isLaterThan parse latestCommitAt (scanNotes uid aid notes none none).1 ||
            isLaterThan parse (scanNotes uid aid notes none none).2
              (scanNotes uid aid notes none none).1) = true
        · rw [if_pos hlater] at h
          exact absurd h (by decide)
        · rw [if_neg hlater] at h
          exact absurd h (by decide)
      · intro h
        exact absurd htr h
    · rw [if_pos (by simpa using htr)]
      rw [hscan, List.any_eq_true] at htr
      simp [htr]
  · intro hne
    rw [resolveReviewStatus] at hne ⊢
    by_cases htr : strTruthy (scanNotes uid aid notes none none).1 = true
    · rw [if_neg (by simp [htr])] at hne ⊢
      by_cases hlater : (isLaterThan parse latestCommitAt (scanNotes uid aid notes none none).1 ||
          isLaterThan parse (scanNotes uid aid notes none none).2
            (scanNotes uid aid notes none none).1) = true
      · rw [if_pos hlater]
        rw [Bool.or_eq_true, isLaterThan_iff, isLaterThan_iff] at hlater
        simp [hlater]
      · rw [if_neg hlater]
        rw [Bool.or_eq_true] at hlater
        push_neg at hlater
        constructor
        · intro h
          exact absurd h (by decide)
        · intro h
          rcases h with h | h
          · exact absurd ((isLaterThan_iff parse _ _).mpr h) hlater.1
          · exact absurd ((isLaterThan_iff parse _ _).mpr h) hlater.2
    · rw [if_pos (by simpa using htr)] at hne
      exact absurd rfl hne
  · rw [resolveReviewStatus]
    by_cases htr : strTruthy (scanNotes uid aid notes none none).1 = true
    · rw [if_neg (by simp [htr])]
      by_cases hlater : (isLaterThan parse latestCommitAt (scanNotes uid aid notes none none).1 ||
          isLaterThan parse (scanNotes uid aid notes none none).2
            (scanNotes uid aid notes none none).1) = true
      · rw [if_pos hlater]
        exact Or.inr (Or.inl rfl)
      · rw [if_neg hlater]
        exact Or.inr (Or.inr rfl)
    · rw [if_pos (by simpa using htr)]
      exact Or.inl rfl

/-- Witness for C3 (amended): a reviewer comment at `c2` with a newer commit at
`c3` classifies as `needs_review`. -/
theorem reviewStatusClassification_witness :
    resolveReviewStatus parseTable
        (scanNotes 7 (some 9)
          [{ created_at := "c2", author := some { id := 7 } }] none none).1
        (some "c3")
        (scanNotes 7 (some 9)
          [{ created_at := "c2", author := some { id := 7 } }] none none).2 =
      ReviewerReviewStatus.needs_review := by
  have h := (reviewStatusClassification parseTable 7 (some 9)
    [{ created_at := "c2", author := some { id := 7 } }] (some "c3")).2.1 (by decide)
  exact h.mpr (Or.inl ⟨"c3", "c2", 3, 2, rfl, by decide, by decide, by decide, by decide,
    by decide, by decide⟩)

/-- Appending a fresh cache entry makes it visible at its own key. -/
theorem cacheGet_append_self {β : Type} (cache : List (String × β)) (key : String) (v : β)
    (h : cacheGet cache key = none) : cacheGet (cache ++ [(key, v)]) key = some v := by
  have hf : cache.find? (fun entry => entry.1 == key) = none := by
    cases hx : cache.find? (fun entry => entry.1 == key)
    · rfl
    · rw [cacheGet, hx] at h
      simp at h
  rw [cacheGet, List.find?_append, hf]
  simp

/-- Appending a cache entry does not change lookups at other keys. -/
theorem cacheGet_append_other {β : Type} (cache : List (String × β)) (key k : String)
    (v : β) (h : ¬k = key) : cacheGet (cache ++ [(key, v)]) k = cacheGet cache k := by
  rw [cacheGet, cacheGet, List.find?_append]
  have h' : ¬key = k := fun e => h e.symm
  cases hx : cache.find? (fun entry => entry.1 == k)
  · simp [hx, h']
  · simp [hx]

/-- A cached per-entity approvals lookup returns the cached value, untouched
state. -/
theorem getMergeRequestApprovals_cached (env : Env) (mr : MergeRequest) (s : ClientState)
    (v : Option MergeRequestApprovals)
    (h : cacheGet s.approvalsCache (getMergeRequestKey mr) = some v) :
    getMergeRequestApprovals env mr s = (v, s) := by
  simp [getMergeRequestApprovals, h]

/-- A missed approvals lookup issues one request, stores and returns its
(possibly absent) result. -/
theorem getMergeRequestApprovals_miss (env : Env) (mr : MergeRequest) (s : ClientState)
    (h : cacheGet s.approvalsCache (getMergeRequestKey mr) = none) :
    getMergeRequestApprovals env mr s =
      ((env.approvalsResp (getMergeRequestKey mr)).toOption,
        { s with
          approvalsCache := s.approvalsCache ++
            [(getMergeRequestKey mr, (env.approvalsResp (getMergeRequestKey mr)).toOption)]
          requestLog := s.requestLog ++ [(ResourceKind.approvalsK, getMergeRequestKey mr)] }) := by
  simp [getMergeRequestApprovals, h]

/-- A cached details lookup returns the cached value, untouched state. -/
theorem getMergeRequestDetails_cached (env : Env) (mr : MergeRequest) (s : ClientState)
    (v : Option MergeRequestDetails)
    (h : cacheGet s.detailsCache (getMergeRequestKey mr) = some v) :
    getMergeRequestDetails env mr s = (v, s) := by
  simp [getMergeRequestDetails, h]

/-- A missed details lookup issues one request, stores and returns its result. -/
theorem getMergeRequestDetails_miss (env : Env) (mr : MergeRequest) (s : ClientState)
    (h : cacheGet s.detailsCache (getMergeRequestKey mr) = none) :
    getMergeRequestDetails env mr s =
      ((env.detailsResp (getMergeRequestKey mr)).toOption,
        { s with
          detailsCache := s.detailsCache ++
            [(getMergeRequestKey mr, (env.detailsResp (getMergeRequestKey mr)).toOption)]
          requestLog := s.requestLog ++ [(ResourceKind.detailsK, getMergeRequestKey mr)] }) := by
  simp [getMergeRequestDetails, h]

/-- A cached notes lookup returns the cached value, untouched state. -/
theorem getMergeRequestNotes_cached (env : Env) (mr : MergeRequest) (s : ClientState)
    (v : Option (List MergeRequestNote))
    (h : cacheGet s.notesCache (getMergeRequestKey mr) = some v) :
    getMergeRequestNotes env mr s = (v, s) := by
  simp [getMergeRequestNotes, h]

/-- A missed notes lookup issues one request, stores and returns its result. -/
theorem getMergeRequestNotes_miss (env : Env) (mr : MergeRequest) (s : ClientState)
    (h : cacheGet s.notesCache (getMergeRequestKey mr) = none) :
    getMergeRequestNotes env mr s =
      ((env.notesResp (getMergeRequestKey mr)).toOption,
        { s with
          notesCache := s.notesCache ++
            [(getMergeRequestKey mr, (env.notesResp (getMergeRequestKey mr)).toOption)]
          requestLog := s.requestLog ++ [(ResourceKind.notesK, getMergeRequestKey mr)] }) := by
  simp [getMergeRequestNotes, h]

/-- A cached commits lookup returns the cached value, untouched state. -/
theorem getMergeRequestCommits_cached (env : Env) (mr : MergeRequest) (s : ClientState)
    (v : Option (List MergeRequestCommit))
    (h : cacheGet s.commitsCache (getMergeRequestKey mr) = some v) :
    getMergeRequestCommits env mr s = (v, s) := by
  simp [getMergeRequestCommits, h]

/-- A missed commits lookup issues one request, stores and returns its result. -/
theorem getMergeRequestCommits_miss (env : Env) (mr : MergeRequest) (s : ClientState)
    (h : cacheGet s.commitsCache (getMergeRequestKey mr) = none) :
    getMergeRequestCommits env mr s =
      ((env.commitsResp (getMergeRequestKey mr)).toOption,
        { s with
          commitsCache := s.commitsCache ++
            [(getMergeRequestKey mr, (env.commitsResp (getMergeRequestKey mr)).toOption)]
          requestLog := s.requestLog ++ [(ResourceKind.commitsK, getMergeRequestKey mr)] }) := by
  simp [getMergeRequestCommits, h]

/-- One approvals lookup preserves the cache-accounting invariant. -/
theorem goodState_getApprovals (env : Env) (mr : MergeRequest) (s : ClientState)
    (h : goodState s) : goodState (getMergeRequestApprovals env mr s).2 := by
  cases hc : cacheGet s.approvalsCache (getMergeRequestKey mr) with
  | some v =>
    rw [getMergeRequestApprovals_cached env mr s v hc]
    exact h
  | none =>
    rw [getMergeRequestApprovals_miss env mr s hc]
    obtain ⟨hnd, hA, hD, hN, hC⟩ := h
    have hnotin : (ResourceKind.approvalsK, getMergeRequestKey mr) ∉ s.requestLog := by
      intro hin
      simp only [logMatchesCache] at hA
      have := (hA (getMergeRequestKey mr)).mp hin
      rw [hc] at this
      simp at this
    refine ⟨?_, ?_, ?_, ?_, ?_⟩
    · simp [List.nodup_append, List.disjoint_singleton, hnd, hnotin]
    · simp only [logMatchesCache] at hA ⊢
      intro k
      by_cases hk : k = getMergeRequestKey mr
      · subst hk
        rw [cacheGet_append_self _ _ _ hc]
        simp
      · rw [cacheGet_append_other _ _ _ _ hk]
        simp [List.mem_append, hA k, hk]
    · simp only [logMatchesCache] at hD ⊢
      intro k
      simp [List.mem_append, hD k]
    · simp only [logMatchesCache] at hN ⊢
      intro k
      simp [List.mem_append, hN k]
    · simp only [logMatchesCache] at hC ⊢
      intro k
      simp [List.mem_append, hC k]

/-- A repeated approvals lookup returns the first lookup's result and
leaves the state unchanged. -/
theorem getMergeRequestApprovals_idem (env : Env) (mr : MergeRequest) (s : ClientState) :
    getMergeRequestApprovals env mr (getMergeRequestApprovals env mr s).2 =
      ((getMergeRequestApprovals env mr s).1, (getMergeRequestApprovals env mr s).2) := by
  cases hc : cacheGet s.approvalsCache (getMergeRequestKey mr) with
  | some v =>
    rw [getMergeRequestApprovals_cached env mr s v hc, getMergeRequestApprovals_cached env mr s v hc]
  | none =>
    rw [getMergeRequestApprovals_miss env mr s hc]
    rw [getMergeRequestApprovals_cached env mr _ _ (cacheGet_append_self _ _ _ hc)]

/-- One details lookup preserves the cache-accounting invariant. -/
theorem goodState_getDetails (env : Env) (mr : MergeRequest) (s : ClientState)
    (h : goodState s) : goodState (getMergeRequestDetails env mr s).2 := by
  cases hc : cacheGet s.detailsCache (getMergeRequestKey mr) with
  | some v =>
    rw [getMergeRequestDetails_cached env mr s v hc]
    exact h
  | none =>
    rw [getMergeRequestDetails_miss env mr s hc]
    obtain ⟨hnd, hA, hD, hN, hC⟩ := h
    have hnotin : (ResourceKind.detailsK, getMergeRequestKey mr) ∉ s.requestLog := by
      intro hin
      simp only [logMatchesCache] at hD
      have := (hD (getMergeRequestKey mr)).mp hin
      rw [hc] at this
      simp at this
    refine ⟨?_, ?_, ?_, ?_, ?_⟩
    · simp [List.nodup_append, List.disjoint_singleton, hnd, hnotin]
    · simp only [logMatchesCache] at hA ⊢
      intro k
      simp [List.mem_append, hA k]
    · simp only [logMatchesCache] at hD ⊢
      intro k
      by_cases hk : k = getMergeRequestKey mr
      · subst hk
        rw [cacheGet_append_self _ _ _ hc]
        simp
      · rw [cacheGet_append_other _ _ _ _ hk]
        simp [List.mem_append, hD k, hk]
    · simp only [logMatchesCache] at hN ⊢
      intro k
      simp [List.mem_append, hN k]
    · simp only [logMatchesCache] at hC ⊢
      intro k
      simp [List.mem_append, hC k]

/-- A repeated details lookup returns the first lookup's result and
leaves the state unchanged. -/
theorem getMergeRequestDetails_idem (env : Env) (mr : MergeRequest) (s : ClientState) :
    getMergeRequestDetails env mr (getMergeRequestDetails env mr s).2 =
      ((getMergeRequestDetails env mr s).1, (getMergeRequestDetails env mr s).2) := by
  cases hc : cacheGet s.detailsCache (getMergeRequestKey mr) with
  | some v =>
    rw [getMergeRequestDetails_cached env mr s v hc, getMergeRequestDetails_cached env mr s v hc]
  | none =>
    rw [getMergeRequestDetails_miss env mr s hc]
    rw [getMergeRequestDetails_cached env mr _ _ (cacheGet_append_self _ _ _ hc)]

/-- One notes lookup preserves the cache-accounting invariant. -/
theorem goodState_getNotes (env : Env) (mr : MergeRequest) (s : ClientState)
    (h : goodState s) : goodState (getMergeRequestNotes env mr s).2 := by
  cases hc : cacheGet s.notesCache (getMergeRequestKey mr) with
  | some v =>
    rw [getMergeRequestNotes_cached env mr s v hc]
    exact h
  | none =>
    rw [getMergeRequestNotes_miss env mr s hc]
    obtain ⟨hnd, hA, hD, hN, hC⟩ := h
    have hnotin : (ResourceKind.notesK, getMergeRequestKey mr) ∉ s.requestLog := by
      intro hin
      simp only [logMatchesCache] at hN
      have := (hN (getMergeRequestKey mr)).mp hin
      rw [hc] at this
      simp at this
    refine ⟨?_, ?_, ?_, ?_, ?_⟩
    · simp [List.nodup_append, List.disjoint_singleton, hnd, hnotin]
    · simp only [logMatchesCache] at hA ⊢
      intro k
      simp [List.mem_append, hA k]
    · simp only [logMatchesCache] at hD ⊢
      intro k
      simp [List.mem_append, hD k]
    · simp only [logMatchesCache] at hN ⊢
      intro k
      by_cases hk : k = getMergeRequestKey mr
      · subst hk
        rw [cacheGet_append_self _ _ _ hc]
        simp
      · rw [cacheGet_append_other _ _ _ _ hk]
        simp [List.mem_append, hN k, hk]
    · simp only [logMatchesCache] at hC ⊢
      intro k
      simp [List.mem_append, hC k]

/-- A repeated notes lookup returns the first lookup's result and
leaves the state unchanged. -/
theorem getMergeRequestNotes_idem (env : Env) (mr : MergeRequest) (s : ClientState) :
    getMergeRequestNotes env mr (getMergeRequestNotes env mr s).2 =
      ((getMergeRequestNotes env mr s).1, (getMergeRequestNotes env mr s).2) := by
  cases hc : cacheGet s.notesCache (getMergeRequestKey mr) with
  | some v =>
    rw [getMergeRequestNotes_cached env mr s v hc, getMergeRequestNotes_cached env mr s v hc]
  | none =>
    rw [getMergeRequestNotes_miss env mr s hc]
    rw [getMergeRequestNotes_cached env mr _ _ (cacheGet_append_self _ _ _ hc)]

/-- One commits lookup preserves the cache-accounting invariant. -/
theorem goodState_getCommits (env : Env) (mr : MergeRequest) (s : ClientState)
    (h : goodState s) : goodState (getMergeRequestCommits env mr s).2 := by
  cases hc : cacheGet s.commitsCache (getMergeRequestKey mr) with
  | some v =>
    rw [getMergeRequestCommits_cached env mr s v hc]
    exact h
  | none =>
    rw [getMergeRequestCommits_miss env mr s hc]
    obtain ⟨hnd, hA, hD, hN, hC⟩ := h
    have hnotin : (ResourceKind.commitsK, getMergeRequestKey mr) ∉ s.requestLog := by
      intro hin
      simp only [logMatchesCache] at hC
      have := (hC (getMergeRequestKey mr)).mp hin
      rw [hc] at this
      simp at this
    refine ⟨?_, ?_, ?_, ?_, ?_⟩
    · simp [List.nodup_append, List.disjoint_singleton, hnd, hnotin]
    · simp only [logMatchesCache] at hA ⊢
      intro k
      simp [List.mem_append, hA k]
    · simp only [logMatchesCache] at hD ⊢
      intro k
      simp [List.mem_append, hD k]
    · simp only [logMatchesCache] at hN ⊢
      intro k
      simp [List.mem_append, hN k]
    · simp only [logMatchesCache] at hC ⊢
      intro k
      by_cases hk : k = getMergeRequestKey mr
      · subst hk
        rw [cacheGet_append_self _ _ _ hc]
        simp
      · rw [cacheGet_append_other _ _ _ _ hk]
        simp [List.mem_append, hC k, hk]

/-- A repeated commits lookup returns the first lookup's result and
leaves the state unchanged. -/
theorem getMergeRequestCommits_idem (env : Env) (mr : MergeRequest) (s : ClientState) :
    getMergeRequestCommits env mr (getMergeRequestCommits env mr s).2 =
      ((getMergeRequestCommits env mr s).1, (getMergeRequestCommits env mr s).2) := by
  cases hc : cacheGet s.commitsCache (getMergeRequestKey mr) with
  | some v =>
    rw [getMergeRequestCommits_cached env mr s v hc, getMergeRequestCommits_cached env mr s v hc]
  | none =>
    rw [getMergeRequestCommits_miss env mr s hc]
    rw [getMergeRequestCommits_cached env mr _ _ (cacheGet_append_self _ _ _ hc)]

/-- A fresh client satisfies the cache-accounting invariant. -/
theorem goodState_initial : goodState initialClientState := by
  refine ⟨List.nodup_nil, ?_, ?_, ?_, ?_⟩ <;>
  · simp only [logMatchesCache]
    intro k
    simp [initialClientState, cacheGet]

/-- Every sequence of memoized lookups preserves the invariant. -/
theorem goodState_runCalls (env : Env) :
    ∀ (calls : List (ResourceKind × MergeRequest)) (s : ClientState),
      goodState s → goodState (runCalls env calls s)
  | [], s, h => h
  | call :: rest, s, h => by
    rw [runCalls, List.foldl_cons]
    refine goodState_runCalls env rest _ ?_
    cases call with
    | mk kind mr =>
      cases kind with
      | approvalsK => exact goodState_getApprovals env mr s h
      | detailsK => exact goodState_getDetails env mr s h
      | notesK => exact goodState_getNotes env mr s h
      | commitsK => exact goodState_getCommits env mr s h

/-- C8: within one derivation pass, each distinct (entity key, resource kind)
pair is requested at most once — after any sequence of lookups from a fresh
client the request log is duplicate-free — repeated lookups of the same pair
share the first result without touching the state, and a failed lookup is
shared as an absent value. -/
theorem perEntityMemoization (env : Env) :
    (∀ calls : List (ResourceKind × MergeRequest),
      (runCalls env calls initialClientState).requestLog.Nodup ∧
      goodState (runCalls env calls initialClientState)) ∧
    (∀ mr s, getMergeRequestApprovals env mr (getMergeRequestApprovals env mr s).2 =
      ((getMergeRequestApprovals env mr s).1, (getMergeRequestApprovals env mr s).2)) ∧
    (∀ mr s, getMergeRequestDetails env mr (getMergeRequestDetails env mr s).2 =
      ((getMergeRequestDetails env mr s).1, (getMergeRequestDetails env mr s).2)) ∧
    (∀ mr s, getMergeRequestNotes env mr (getMergeRequestNotes env mr s).2 =
      ((getMergeRequestNotes env mr s).1, (getMergeRequestNotes env mr s).2)) ∧
    (∀ mr s, getMergeRequestCommits env mr (getMergeRequestCommits env mr s).2 =
      ((getMergeRequestCommits env mr s).1, (getMergeRequestCommits env mr s).2)) ∧
    (∀ mr s e, cacheGet s.approvalsCache (getMergeRequestKey mr) = none →
      env.approvalsResp (getMergeRequestKey mr) = .error e →
      (getMergeRequestApprovals env mr s).1 = none ∧
      cacheGet ((getMergeRequestApprovals env mr s).2).approvalsCache
        (getMergeRequestKey mr) = some none) ∧
    (∀ mr s e, cacheGet s.detailsCache (getMergeRequestKey mr) = none →
      env.detailsResp (getMergeRequestKey mr) = .error e →
      (getMergeRequestDetails env mr s).1 = none ∧
      cacheGet ((getMergeRequestDetails env mr s).2).detailsCache
        (getMergeRequestKey mr) = some none) ∧
    (∀ mr s e, cacheGet s.notesCache (getMergeRequestKey mr) = none →
      env.notesResp (getMergeRequestKey mr) = .error e →
      (getMergeRequestNotes env mr s).1 = none ∧
      cacheGet ((getMergeRequestNotes env mr s).2).notesCache
        (getMergeRequestKey mr) = some none) ∧
    (∀ mr s e, cacheGet s.commitsCache (getMergeRequestKey mr) = none →
      env.commitsResp (getMergeRequestKey mr) = .error e →
      (getMergeRequestCommits env mr s).1 = none ∧
      cacheGet ((getMergeRequestCommits env mr s).2).commitsCache
        (getMergeRequestKey mr) = some none) := by
  refine ⟨?_, getMergeRequestApprovals_idem env, getMergeRequestDetails_idem env,
    getMergeRequestNotes_idem env, getMergeRequestCommits_idem env, ?_, ?_, ?_, ?_⟩
  · intro calls
    have h := goodState_runCalls env calls initialClientState goodState_initial
    exact ⟨h.1, h⟩
  · intro mr s e hc hf
    rw [getMergeRequestApprovals_miss env mr s hc]
    refine ⟨by rw [hf]; rfl, ?_⟩
    have := cacheGet_append_self s.approvalsCache (getMergeRequestKey mr)
      ((env.approvalsResp (getMergeRequestKey mr)).toOption) hc
    rw [hf] at this ⊢
    simpa using this
  · intro mr s e hc hf
    rw [getMergeRequestDetails_miss env mr s hc]
    refine ⟨by rw [hf]; rfl, ?_⟩
    have := cacheGet_append_self s.detailsCache (getMergeRequestKey mr)
      ((env.detailsResp (getMergeRequestKey mr)).toOption) hc
    rw [hf] at this ⊢
    simpa using this
  · intro mr s e hc hf
    rw [getMergeRequestNotes_miss env mr s hc]
    refine ⟨by rw [hf]; rfl, ?_⟩
    have := cacheGet_append_self s.notesCache (getMergeRequestKey mr)
      ((env.notesResp (getMergeRequestKey mr)).toOption) hc
    rw [hf] at this ⊢
    simpa using this
  · intro mr s e hc hf
    rw [getMergeRequestCommits_miss env mr s hc]
    refine ⟨by rw [hf]; rfl, ?_⟩
    have := cacheGet_append_self s.commitsCache (getMergeRequestKey mr)
      ((env.commitsResp (getMergeRequestKey mr)).toOption) hc
    rw [hf] at this ⊢
    simpa using this

/-- Witness for C8: two details lookups of the same merge request from a fresh
client leave a duplicate-free request log, and a failing approvals lookup is
shared as an absent value cached for the cycle. -/
theorem perEntityMemoization_witness :
    (runCalls failingEnv
        [(ResourceKind.detailsK, mrListFailed), (ResourceKind.detailsK, mrListFailed)]
        initialClientState).requestLog.Nodup ∧
    (getMergeRequestApprovals failingEnv mrListFailed initialClientState).1 = none ∧
    cacheGet ((getMergeRequestApprovals failingEnv mrListFailed initialClientState).2).approvalsCache
      (getMergeRequestKey mrListFailed) = some none := by
  refine ⟨((perEntityMemoization failingEnv).1
    [(ResourceKind.detailsK, mrListFailed), (ResourceKind.detailsK, mrListFailed)]).1, ?_, ?_⟩
  · exact ((perEntityMemoization failingEnv).2.2.2.2.2.1 mrListFailed initialClientState
      { status := 500, statusText := "Internal Server Error" } rfl rfl).1
  · exact ((perEntityMemoization failingEnv).2.2.2.2.2.1 mrListFailed initialClientState
      { status := 500, statusText := "Internal Server Error" } rfl rfl).2

/-- Folding the record builder appends exactly one record per input. -/
theorem buildHealthSignals_foldl_length (env : Env) (uid : Int)
    (opts : BuildHealthSignalsOptions) :
    ∀ (mrs : List MergeRequest) (acc : List MergeRequestHealth × ClientState),
      (mrs.foldl (buildHealthStep env uid opts) acc).1.length = acc.1.length + mrs.length
  | [], acc => by simp
  | mr :: rest, acc => by
    rw [List.foldl_cons, buildHealthSignals_foldl_length env uid opts rest]
    simp [buildHealthStep]
    omega

/-- With every per-entity lookup failing and nothing cached, the record builder
still produces a record for the merge request, with CI status and conflict
detection degraded to the no-details fallbacks, and the absent details cached. -/
theorem buildOneHealthSignal_degraded (env : Env) (mr : MergeRequest) (uid : Int)
    (opts : BuildHealthSignalsOptions) (s : ClientState) (eA eD eN eC : HttpFailure)
    (hfA : env.approvalsResp (getMergeRequestKey mr) = .error eA)
    (hfD : env.detailsResp (getMergeRequestKey mr) = .error eD)
    (hfN : env.notesResp (getMergeRequestKey mr) = .error eN)
    (hfC : env.commitsResp (getMergeRequestKey mr) = .error eC)
    (hcA : cacheGet s.approvalsCache (getMergeRequestKey mr) = none)
    (hcD : cacheGet s.detailsCache (getMergeRequestKey mr) = none)
    (hcN : cacheGet s.notesCache (getMergeRequestKey mr) = none)
    (hcC : cacheGet s.commitsCache (getMergeRequestKey mr) = none) :
    (buildOneHealthSignal env uid opts mr s).1.mergeRequest = mr ∧
    (buildOneHealthSignal env uid opts mr s).1.ciStatus =
        toCiStatus (getNormalizedCiStatus mr none) none ∧
    (buildOneHealthSignal env uid opts mr s).1.hasConflicts = hasMergeConflict mr none ∧
    cacheGet ((buildOneHealthSignal env uid opts mr s).2).detailsCache
      (getMergeRequestKey mr) = some none := by
  by_cases hcm : (Option.map UserRef.id mr.author == some uid) = true <;>
  by_cases hrc : opts.includeReviewerChecks = true <;>
  by_cases hlc : opts.includeLatestCommitAt = true <;>
  · simp [buildOneHealthSignal, buildOwnMergeRequestChecks, buildReviewerMergeRequestChecks,
      getLatestCommitAt, getMergeRequestApprovals, getMergeRequestDetails,
      getMergeRequestNotes, getMergeRequestCommits, hfA, hfD, hfN, hfC, hcA, hcD, hcN, hcC,
      hcm, hrc, hlc, cacheGet_append_self, Except.toOption]

/-- C9: a failed identity or list request aborts the relevance resolution with
an error carrying the numeric HTTP status and status text, whereas failing
per-merge-request lookups never propagate: every input still yields a health
record, CI status and conflict detection fall back to the list-level signals,
and the absent details payload is cached for the rest of the cycle. -/
theorem errorHandlingContract (env : Env) (s : ClientState) :
    (∀ e, env.userResp = .error e →
      (listMyRelevantMergeRequests env s).1 = .error e ∧
      remoteApiErrorMessage e =
        "GitLab API error: " ++ toString e.status ++ " " ++ e.statusText) ∧
    (∀ u e, env.userResp = .ok u → env.assignedResp = .error e →
      (listMyRelevantMergeRequests env s).1 = .error e) ∧
    (∀ u a e, env.userResp = .ok u → env.assignedResp = .ok a →
      env.reviewerResp = .error e →
      (listMyRelevantMergeRequests env s).1 = .error e) ∧
    (∀ mrs uid opts, (buildHealthSignals env mrs uid opts s).1.length = mrs.length) ∧
    (∀ mr uid opts eA eD eN eC,
      env.approvalsResp (getMergeRequestKey mr) = .error eA →
      env.detailsResp (getMergeRequestKey mr) = .error eD →
      env.notesResp (getMergeRequestKey mr) = .error eN →
      env.commitsResp (getMergeRequestKey mr) = .error eC →
      cacheGet s.approvalsCache (getMergeRequestKey mr) = none →
      cacheGet s.detailsCache (getMergeRequestKey mr) = none →
      cacheGet s.notesCache (getMergeRequestKey mr) = none →
      cacheGet s.commitsCache (getMergeRequestKey mr) = none →
      ∃ h, (buildHealthSignals env [mr] uid opts s).1 = [h] ∧
        h.mergeRequest = mr ∧
        h.ciStatus = toCiStatus (getNormalizedCiStatus mr none) none ∧
        h.hasConflicts = hasMergeConflict mr none ∧
        cacheGet ((buildHealthSignals env [mr] uid opts s).2).detailsCache
          (getMergeRequestKey mr) = some none) := by
  refine ⟨?_, ?_, ?_, ?_, ?_⟩
  · intro e he
    refine ⟨?_, rfl⟩
    rw [listMyRelevantMergeRequests, he]
  · intro u e hu he
    rw [listMyRelevantMergeRequests, hu, he]
  · intro u a e hu ha he
    rw [listMyRelevantMergeRequests, hu, ha, he]
  · intro mrs uid opts
    rw [buildHealthSignals, buildHealthSignals_foldl_length]
    simp
  · intro mr uid opts eA eD eN eC hfA hfD hfN hfC hcA hcD hcN hcC
    have hd := buildOneHealthSignal_degraded env mr uid opts s eA eD eN eC
      hfA hfD hfN hfC hcA hcD hcN hcC
    refine ⟨(buildOneHealthSignal env uid opts mr s).1, ?_, hd.1, hd.2.1, hd.2.2.1, ?_⟩
    · rw [buildHealthSignals, List.foldl_cons, List.foldl_nil, buildHealthStep]
      simp
    · rw [buildHealthSignals, List.foldl_cons, List.foldl_nil, buildHealthStep]
      simpa using hd.2.2.2

/-- Witness for C9: a 401 identity response aborts the resolution with that
status, while building health for a record under all-failing per-entity
lookups still yields one degraded record. -/
theorem errorHandlingContract_witness :
    (listMyRelevantMergeRequests
        { failingEnv with userResp := .error { status := 401, statusText := "Unauthorized" } }
        initialClientState).1 =
      .error { status := 401, statusText := "Unauthorized" } ∧
    (∃ h, (buildHealthSignals failingEnv [mrListFailed] 99 {} initialClientState).1 = [h] ∧
      h.mergeRequest = mrListFailed ∧
      h.ciStatus = toCiStatus (getNormalizedCiStatus mrListFailed none) none ∧
      h.hasConflicts = hasMergeConflict mrListFailed none ∧
      cacheGet ((buildHealthSignals failingEnv [mrListFailed] 99 {}
          initialClientState).2).detailsCache
        (getMergeRequestKey mrListFailed) = some none) := by
  constructor
  · exact ((errorHandlingContract
      { failingEnv with userResp := .error { status := 401, statusText := "Unauthorized" } }
      initialClientState).1 { status := 401, statusText := "Unauthorized" } rfl).1
  · exact (errorHandlingContract failingEnv initialClientState).2.2.2.2 mrListFailed 99 {}
      { status := 500, statusText := "Internal Server Error" }
      { status := 404, statusText := "Not Found" }
      { status := 404, statusText := "Not Found" }
      { status := 404, statusText := "Not Found" }
      rfl rfl rfl rfl rfl rfl rfl rfl

/-- One `Map.set` step changes the stored entry only at the written id. -/
theorem entryAt_setById (acc : List (Int × MergeRequest)) (mr : MergeRequest) (k : Int) :
    entryAt (setById acc mr) k = if k = mr.id then some mr else entryAt acc k := by
  rw [setById]
  by_cases hmem : acc.any (fun entry => entry.1 == mr.id) = true
  · rw [if_pos hmem]
    have hpred : (fun e : Int × MergeRequest =>
        ((if e.1 == mr.id then (e.1, mr) else e)).1 == k) = (fun e => e.1 == k) := by
      funext e
      by_cases h : (e.1 == mr.id) = true
      · rw [if_pos h]
      · rw [if_neg h]
    rw [entryAt, List.find?_map]
    simp only [Function.comp_def]
    rw [hpred]
    cases hx : acc.find? (fun e => e.1 == k) with
    | none =>
      by_cases hk : k = mr.id
      · exfalso
        obtain ⟨e, he, hbeq⟩ := List.any_eq_true.mp hmem
        have hsome : (acc.find? (fun e => e.1 == k)).isSome = true := by
          rw [hk]
          exact List.find?_isSome.mpr ⟨e, he, hbeq⟩
        rw [hx] at hsome
        simp at hsome
      · rw [if_neg hk, entryAt, hx]
        rfl
    | some e0 =>
      have he0 := List.find?_some hx
      have he0' : e0.1 = k := by simpa using he0
      by_cases hk : k = mr.id
      · rw [if_pos hk]
        have heq : e0.1 = mr.id := by rw [he0', hk]
        simp [heq]
      · have hne2 : ¬e0.1 = mr.id := by
          rw [he0']
          exact hk
        rw [if_neg hk, entryAt, hx]
        simp [hne2]
  · rw [if_neg hmem, entryAt, List.find?_append]
    cases hx : acc.find? (fun e => e.1 == k) with
    | none =>
      by_cases hk : k = mr.id
      · subst hk
        simp [hx]
      · rw [if_neg hk, entryAt, hx]
        have : ¬(mr.id == k) = true := by simpa using fun e => hk e.symm
        simp [hx, this]
    | some e0 =>
      by_cases hk : k = mr.id
      · exfalso
        have he0 := List.find?_some hx
        have hin := List.mem_of_find?_eq_some hx
        subst hk
        exact absurd (List.any_eq_true.mpr ⟨e0, hin, he0⟩) hmem
      · rw [if_neg hk, entryAt, hx]
        simp [hx]

/-- The entry stored at a key after the dedup fold is the last record seen with
that id, falling back to the original map. -/
theorem entryAt_foldl :
    ∀ (l : List MergeRequest) (acc : List (Int × MergeRequest)) (k : Int),
      entryAt (l.foldl setById acc) k =
        l.foldl (fun cur x => if x.id = k then some x else cur) (entryAt acc k)
  | [], _, _ => rfl
  | mr :: rest, acc, k => by
    rw [List.foldl_cons, List.foldl_cons, entryAt_foldl rest, entryAt_setById]
    congr 1
    by_cases h : k = mr.id
    · rw [if_pos h, if_pos h.symm]
    · rw [if_neg h, if_neg (fun e => h e.symm)]

/-- In an association map with duplicate-free keys, every entry is retrieved at
its own key. -/
theorem mem_entryAt :
    ∀ (acc : List (Int × MergeRequest)), (acc.map Prod.fst).Nodup →
      ∀ e ∈ acc, entryAt acc e.1 = some e.2
  | [], _, e, he => absurd he (List.not_mem_nil e)
  | a :: rest, hnd, e, he => by
    rcases List.mem_cons.mp he with rfl | hrest
    · simp [entryAt]
    · have hne : ¬(a.1 == e.1) = true := by
        intro hbeq
        rw [List.map_cons, List.nodup_cons] at hnd
        apply hnd.1
        rw [show a.1 = e.1 by simpa using hbeq]
        exact List.mem_map.mpr ⟨e, hrest, rfl⟩
      have hrec := mem_entryAt rest (by
        rw [List.map_cons, List.nodup_cons] at hnd
        exact hnd.2) e hrest
      have hfalse : (a.1 == e.1) = false := by simpa using hne
      rw [entryAt, List.find?_cons, hfalse]
      exact hrec

/-- One `Map.set` step inserts the id into the key sequence first-occurrence
style. -/
theorem keys_setById (acc : List (Int × MergeRequest)) (mr : MergeRequest) :
    (setById acc mr).map Prod.fst = insertIdIfNew (acc.map Prod.fst) mr.id := by
  rw [setById, insertIdIfNew]
  by_cases hmem : acc.any (fun entry => entry.1 == mr.id) = true
  · obtain ⟨e, he, hbeq⟩ := List.any_eq_true.mp hmem
    rw [if_pos hmem, if_pos (List.mem_map.mpr ⟨e, he, by simpa using hbeq⟩)]
    rw [List.map_map]
    refine List.map_congr_left ?_
    intro a _
    by_cases h : a.1 = mr.id <;> simp [h]
  · rw [if_neg hmem, if_neg ?_]
    · simp
    · intro hin
      obtain ⟨e, he, hid⟩ := List.mem_map.mp hin
      exact hmem (List.any_eq_true.mpr ⟨e, he, by simpa using hid⟩)

/-- The dedup fold's key sequence is the first-occurrence fold of the ids. -/
theorem keys_foldl :
    ∀ (l : List MergeRequest) (acc : List (Int × MergeRequest)),
      ((l.foldl setById acc).map Prod.fst) =
        (l.map (fun mr => mr.id)).foldl insertIdIfNew (acc.map Prod.fst)
  | [], _ => rfl
  | mr :: rest, acc => by
    rw [List.foldl_cons, List.map_cons, List.foldl_cons, keys_foldl rest, keys_setById]

/-- First-occurrence insertion keeps the id sequence duplicate-free. -/
theorem nodup_insert_foldl :
    ∀ (ids : List Int) (acc : List Int), acc.Nodup → (ids.foldl insertIdIfNew acc).Nodup
  | [], _, h => h
  | i :: rest, acc, h => by
    rw [List.foldl_cons]
    refine nodup_insert_foldl rest _ ?_
    rw [insertIdIfNew]
    by_cases hm : i ∈ acc
    · rw [if_pos hm]
      exact h
    · rw [if_neg hm]
      simp [List.nodup_append, List.disjoint_singleton, h, hm]

/-- Every entry written by the dedup fold stores a record carrying its key. -/
theorem snd_id_foldl :
    ∀ (l : List MergeRequest) (acc : List (Int × MergeRequest)),
      (∀ e ∈ acc, (e : Int × MergeRequest).2.id = e.1) →
      ∀ e ∈ l.foldl setById acc, e.2.id = e.1
  | [], _, h => h
  | mr :: rest, acc, h => by
    rw [List.foldl_cons]
    refine snd_id_foldl rest _ ?_
    intro e he
    rw [setById] at he
    by_cases hmem : acc.any (fun entry => entry.1 == mr.id) = true
    · rw [if_pos hmem] at he
      obtain ⟨a, ha, rfl⟩ := List.mem_map.mp he
      by_cases hb : (a.1 == mr.id) = true
      · simp only [if_pos hb]
        have ha1 : a.1 = mr.id := by simpa using hb
        exact ha1.symm
      · simp only [if_neg hb]
        exact h a ha
    · rw [if_neg hmem] at he
      rcases List.mem_append.mp he with hin | hin
      · exact h e hin
      · rw [List.mem_singleton.mp hin]

/-- `dedupeById` emits ids in first-occurrence order, each exactly once. -/
theorem dedupeById_ids (l : List MergeRequest) :
    (dedupeById l).map (fun mr => mr.id) = firstOccIds (l.map (fun mr => mr.id)) ∧
    ((dedupeById l).map (fun mr => mr.id)).Nodup := by
  have hids : (dedupeById l).map (fun mr => mr.id) = (l.foldl setById []).map Prod.fst := by
    rw [dedupeById, List.map_map]
    refine List.map_congr_left ?_
    intro e he
    exact snd_id_foldl l [] (by intro e h; exact absurd h (List.not_mem_nil e)) e he
  rw [hids, keys_foldl]
  exact ⟨rfl, nodup_insert_foldl _ _ List.nodup_nil⟩

/-- Every record `dedupeById` keeps is the last record of the input carrying
its id. -/
theorem dedupeById_last (l : List MergeRequest) (mr : MergeRequest)
    (h : mr ∈ dedupeById l) : lastRecordWithId l mr.id = some mr := by
  rw [dedupeById] at h
  obtain ⟨e, he, rfl⟩ := List.mem_map.mp h
  have hid : e.2.id = e.1 :=
    snd_id_foldl l [] (by intro e h; exact absurd h (List.not_mem_nil e)) e he
  have hkeys : ((l.foldl setById []).map Prod.fst).Nodup := by
    rw [keys_foldl]
    exact nodup_insert_foldl _ _ List.nodup_nil
  have hlook := mem_entryAt _ hkeys e he
  rw [entryAt_foldl] at hlook
  rw [lastRecordWithId, hid]
  exact hlook

/-- Earlier cache entries keep winning after an append. -/
theorem cacheGet_append_left {β : Type} (cache extra : List (String × β)) (k : String)
    (w : β) (h : cacheGet cache k = some w) : cacheGet (cache ++ extra) k = some w := by
  rw [cacheGet, List.find?_append]
  rw [cacheGet] at h
  cases hx : cache.find? (fun entry => entry.1 == k) with
  | none =>
    rw [hx] at h
    exact absurd h (by simp)
  | some e =>
    rw [hx] at h
    simpa using h

/-- Storing the environment's own answer keeps the approvals cache consistent. -/
theorem approvalsCacheConsistent_append (env : Env) (s : ClientState) (key : String)
    (h : approvalsCacheConsistent env s) :
    ∀ key' v,
      cacheGet (s.approvalsCache ++ [(key, (env.approvalsResp key).toOption)]) key' = some v →
      v = (env.approvalsResp key').toOption := by
  intro key' v hv
  by_cases hc : cacheGet s.approvalsCache key' = none
  · by_cases hk : key' = key
    · subst hk
      rw [cacheGet_append_self _ _ _ hc] at hv
      exact (Option.some.injEq _ _ ▸ hv).symm
    · rw [cacheGet_append_other _ _ _ _ hk] at hv
      exact h key' v hv
  · obtain ⟨w, hw⟩ : ∃ w, cacheGet s.approvalsCache key' = some w := by
      cases hcc : cacheGet s.approvalsCache key' with
      | none => exact absurd hcc hc
      | some w => exact ⟨w, rfl⟩
    rw [cacheGet_append_left _ _ _ _ hw] at hv
    have : w = v := by simpa using hv
    rw [← this]
    exact h key' w hw

/-- Under a consistent approvals cache, `isReviewedByUser` computes its pure
value and preserves consistency. -/
theorem isReviewedByUser_spec (env : Env) (mr : MergeRequest) (uid : Int)
    (s : ClientState) (h : approvalsCacheConsistent env s) :
    (isReviewedByUser env mr uid s).1 = isReviewedByUserPure env mr uid ∧
    approvalsCacheConsistent env (isReviewedByUser env mr uid s).2 := by
  by_cases h1 : hasReviewerMarkedReviewed mr uid = true
  · constructor
    · simp [isReviewedByUser, isReviewedByUserPure, h1]
    · have hs : (isReviewedByUser env mr uid s).2 = s := by simp [isReviewedByUser, h1]
      rw [hs]
      exact h
  · by_cases h2 : ((mr.approved_by.getD []).any fun approval => approval.user.id == uid) = true
    · constructor
      · simp [isReviewedByUser, isReviewedByUserPure, h1, h2]
      · have hs : (isReviewedByUser env mr uid s).2 = s := by
          simp [isReviewedByUser, h1, h2]
        rw [hs]
        exact h
    · cases hc : cacheGet s.approvalsCache (getMergeRequestKey mr) with
      | some v =>
        have hv := h _ v hc
        have hcall := getMergeRequestApprovals_cached env mr s v hc
        constructor
        · simp [isReviewedByUser, isReviewedByUserPure, h1, h2, hcall, hv]
        · have hs : (isReviewedByUser env mr uid s).2 = s := by
            simp [isReviewedByUser, h1, h2, hcall]
          rw [hs]
          exact h
      | none =>
        have hcall := getMergeRequestApprovals_miss env mr s hc
        constructor
        · simp [isReviewedByUser, isReviewedByUserPure, h1, h2, hcall]
        · have hs : (isReviewedByUser env mr uid s).2 =
              { s with
                approvalsCache := s.approvalsCache ++
                  [(getMergeRequestKey mr,
                    (env.approvalsResp (getMergeRequestKey mr)).toOption)]
                requestLog := s.requestLog ++
                  [(ResourceKind.approvalsK, getMergeRequestKey mr)] } := by
            simp [isReviewedByUser, h1, h2, hcall]
          rw [hs]
          intro key' v hv
          exact approvalsCacheConsistent_append env s _ h key' v hv

/-- The reviewed-state fold records each merge request's pure reviewed flag. -/
theorem reviewedFold_spec (env : Env) (uid : Int) :
    ∀ (lst : List MergeRequest) (acc : List (MergeRequest × Bool)) (s : ClientState),
      approvalsCacheConsistent env s →
      (lst.foldl (reviewedFoldStep env uid) (acc, s)).1 =
        acc ++ lst.map (fun mergeRequest =>
          (mergeRequest, isReviewedByUserPure env mergeRequest uid))
  | [], acc, s, _ => by simp
  | mr :: rest, acc, s, h => by
    rw [List.foldl_cons]
    have hspec := isReviewedByUser_spec env mr uid s h
    have hstep : reviewedFoldStep env uid (acc, s) mr =
        (acc ++ [(mr, isReviewedByUserPure env mr uid)], (isReviewedByUser env mr uid s).2) := by
      simp [reviewedFoldStep, hspec.1]
    rw [hstep, reviewedFold_spec env uid rest _ _ hspec.2]
    simp

/-- C7: the relevance resolver deduplicates each fetched set by id (keeping the
last-seen record, ids in first-occurrence order, each id at most once), and its
review-requested output — a subsequence of the deduplicated reviewer-scoped
set — contains no draft, no merge request whose embedded approved-by list or
(cached) approvals lookup names the user, and none whose reviewer entry for the
user carries a terminal review state. -/
theorem relevanceResolverSpec (env : Env) (s : ClientState) (user : GitLabUser)
    (assignedList reviewerList : List MergeRequest)
    (hu : env.userResp = .ok user) (ha : env.assignedResp = .ok assignedList)
    (hr : env.reviewerResp = .ok reviewerList)
    (hcache : approvalsCacheConsistent env s) :
    ∃ out s', listMyRelevantMergeRequests env s = (.ok out, s') ∧
      out.currentUserId = user.id ∧
      out.assigned = dedupeById assignedList ∧
      out.reviewRequested =
        ((dedupeById reviewerList).filter (fun mr => !(isDraftMergeRequest mr))).filter
          (fun mr => !(isReviewedByUserPure env mr user.id)) ∧
      (out.assigned.map (fun mr => mr.id)).Nodup ∧
      out.assigned.map (fun mr => mr.id) = firstOccIds (assignedList.map (fun mr => mr.id)) ∧
      (∀ mr, mr ∈ out.assigned → lastRecordWithId assignedList mr.id = some mr) ∧
      (out.reviewRequested.map (fun mr => mr.id)).Nodup ∧
      List.Sublist out.reviewRequested (dedupeById reviewerList) ∧
      (dedupeById reviewerList).map (fun mr => mr.id) =
        firstOccIds (reviewerList.map (fun mr => mr.id)) ∧
      (∀ mr, mr ∈ out.reviewRequested → lastRecordWithId reviewerList mr.id = some mr) ∧
      (∀ mr, mr ∈ out.reviewRequested →
        mr.draft ≠ some true ∧ mr.work_in_progress ≠ some true ∧
        (∀ entry ∈ mr.approved_by.getD [], entry.user.id ≠ user.id) ∧
        (∀ rv, (mr.reviewers.getD []).find? (fun item => item.id == user.id) = some rv →
          normalizeStatusValue rv.state ≠ "reviewed" ∧
          normalizeStatusValue rv.state ≠ "approved" ∧
          normalizeStatusValue rv.state ≠ "requested_changes" ∧
          normalizeStatusValue rv.state ≠ "commented") ∧
        (∀ ap, (env.approvalsResp (getMergeRequestKey mr)).toOption = some ap →
          ∀ entry ∈ ap.approved_by, entry.user.id ≠ user.id)) := by
  have hpairs := reviewedFold_spec env user.id
    ((dedupeById reviewerList).filter (fun mr => !(isDraftMergeRequest mr))) [] s hcache
  have hRR : (((((dedupeById reviewerList).filter (fun mr => !(isDraftMergeRequest mr))).foldl
      (reviewedFoldStep env user.id) ([], s)).1.filter (fun item => !item.2)).map Prod.fst) =
      ((dedupeById reviewerList).filter (fun mr => !(isDraftMergeRequest mr))).filter
        (fun mr => !(isReviewedByUserPure env mr user.id)) := by
    rw [hpairs, List.nil_append, List.filter_map, List.map_map]
    have hfst : (Prod.fst ∘ fun mergeRequest =>
        (mergeRequest, isReviewedByUserPure env mergeRequest user.id)) = id := rfl
    have hpred : ((fun item : MergeRequest × Bool => !item.2) ∘ fun mergeRequest =>
        (mergeRequest, isReviewedByUserPure env mergeRequest user.id)) =
        (fun mr => !(isReviewedByUserPure env mr user.id)) := rfl
    rw [hfst, hpred, List.map_id]
  have hsub : List.Sublist
      (((dedupeById reviewerList).filter (fun mr => !(isDraftMergeRequest mr))).filter
        (fun mr => !(isReviewedByUserPure env mr user.id)))
      (dedupeById reviewerList) :=
    List.Sublist.trans (List.filter_sublist _) (List.filter_sublist _)
  simp only [listMyRelevantMergeRequests, hu, ha, hr]
  refine ⟨⟨user.id, dedupeById assignedList,
    ((dedupeById reviewerList).filter (fun mr => !(isDraftMergeRequest mr))).filter
      (fun mr => !(isReviewedByUserPure env mr user.id))⟩,
    ((((dedupeById reviewerList).filter (fun mr => !(isDraftMergeRequest mr))).foldl
      (reviewedFoldStep env user.id) ([], s)).2),
    ?_, rfl, rfl, rfl, ?_, ?_, ?_, ?_, hsub, (dedupeById_ids reviewerList).1, ?_, ?_⟩
  · rw [hRR]
  · exact (dedupeById_ids assignedList).2
  · exact (dedupeById_ids assignedList).1
  · intro mr hm
    exact dedupeById_last assignedList mr hm
  · exact ((dedupeById_ids reviewerList).2).sublist (hsub.map (fun mr => mr.id))
  · intro mr hm
    exact dedupeById_last reviewerList mr
      ((List.mem_filter.mp (List.mem_filter.mp hm).1).1)
  · intro mr hm
    have hm1 := List.mem_filter.mp hm
    have hm2 := List.mem_filter.mp hm1.1
    have hpure : isReviewedByUserPure env mr user.id = false := by
      cases hx : isReviewedByUserPure env mr user.id
      · rfl
      · rw [hx] at hm1
        exact absurd hm1.2 (by decide)
    have hdraft : isDraftMergeRequest mr = false := by
      cases hx : isDraftMergeRequest mr
      · rfl
      · rw [hx] at hm2
        exact absurd hm2.2 (by decide)
    rw [isReviewedByUserPure] at hpure
    have hp1 := Bool.or_eq_false_iff.mp hpure
    have hp2 := Bool.or_eq_false_iff.mp hp1.1
    refine ⟨?_, ?_, ?_, ?_, ?_⟩
    · intro e
      rw [isDraftMergeRequest, e] at hdraft
      simp at hdraft
    · intro e
      rw [isDraftMergeRequest, e] at hdraft
      simp at hdraft
    · intro entry hentry heq
      have := (List.any_eq_false.mp hp2.2) entry hentry
      rw [heq] at this
      simp at this
    · intro rv hfind
      have ha' := hp2.1
      simp only [hasReviewerMarkedReviewed, hfind] at ha'
      simp only [Option.some_bind] at ha'
      have hh1 := Bool.or_eq_false_iff.mp ha'
      have hh2 := Bool.or_eq_false_iff.mp hh1.1
      have hh3 := Bool.or_eq_false_iff.mp hh2.1
      refine ⟨?_, ?_, ?_, ?_⟩
      · simpa using hh3.1
      · simpa using hh3.2
      · simpa using hh2.2
      · simpa using hh1.2
    · intro ap hap entry hentry heq
      have hc := hp1.2
      rw [hap] at hc
      have hall : ∀ x ∈ ap.approved_by, ¬(x.user.id == user.id) = true :=
        List.any_eq_false.mp hc
      have := hall entry hentry
      rw [heq] at this
      simp at this

/-- Witness for C7: duplicate assigned ids collapse to the last-seen record in
first-occurrence order; the draft and the already-approved reviewer-scoped
merge requests are dropped. -/
theorem relevanceResolverSpec_witness :
    ∃ out s', listMyRelevantMergeRequests relevanceEnv initialClientState = (.ok out, s') ∧
      out.currentUserId = 99 ∧
      out.assigned = [{ id := 1, title := "b" }, { id := 2 }] ∧
      out.reviewRequested = [{ id := 5 }] := by
  obtain ⟨out, s', heq, huid, hassigned, hrr, -, -, -, -, -, -, -, -⟩ :=
    relevanceResolverSpec relevanceEnv initialClientState
      { id := 99, username := "me", name := "Me" } assignedSample reviewerSample
      rfl rfl rfl
      (by intro k v h; simp [initialClientState, cacheGet] at h)
  refine ⟨out, s', heq, huid, ?_, ?_⟩
  · rw [hassigned]
    decide
  · rw [hrr]
    decide

end GitlabActionRadar
